import Mathlib

set_option maxHeartbeats 1000000
set_option maxRecDepth 10000

/-!
Verification model of scripts/setup_game_module.py.

The script instantiates a new game module from a template directory:
it copies game/template to game/<id>, rewrites build.gradle.kts
placeholders, renames the namespace source directory, rewrites the
Kotlin sources, and emits a generated GameConfig.kt, rolling the target
back on any failure along the way.

The filesystem is modelled as an association list from paths
(component lists) to entries (directories or files with character-list
contents); the first binding for a path wins.  Every fallible
filesystem primitive of the script consults an explicit failure
oracle (Inject) so that the spec's injected-failure properties can be
stated.  Python string semantics (str.replace, str.title restricted to
ASCII, f-string config emission) are modelled character by character.
-/

namespace SGM

abbrev Content := List Char

abbrev Path := List String

inductive Entry where
  | dir : Entry
  | file : Content → Entry
  deriving DecidableEq

abbrev FS := List (Path × Entry)

/-- Strip a leading run of components: some r when q = p ++ r. -/
def stripPfx {α : Type} [DecidableEq α] : List α → List α → Option (List α)
  | [], q => some q
  | _ :: _, [] => none
  | a :: as, b :: bs => if a = b then stripPfx as bs else none

def isPfxB {α : Type} [DecidableEq α] (p q : List α) : Bool :=
  (stripPfx p q).isSome

/-- Lookup of the first entry bound to a path. -/
def findE : FS → Path → Option Entry
  | [], _ => none
  | x :: fs, p => if x.1 = p then some x.2 else findE fs p

/-- Remove every binding of exactly this path. -/
def eraseP : FS → Path → FS
  | [], _ => []
  | x :: fs, p => if x.1 = p then eraseP fs p else x :: eraseP fs p

/-- Bind a path to an entry (shadowing removed). -/
def setEntry (fs : FS) (p : Path) (e : Entry) : FS :=
  (p, e) :: eraseP fs p

/-- Model of shutil.rmtree: drop the path and everything below it. -/
def rmtree : FS → Path → FS
  | [], _ => []
  | x :: fs, p => if isPfxB p x.1 then rmtree fs p else x :: rmtree fs p

/-- Model of os.rename of a directory tree: remap the path of every
entry below a to sit below b. -/
def renameTree (fs : FS) (a b : Path) : FS :=
  fs.map fun x =>
    match stripPfx a x.1 with
    | some r => (b ++ r, x.2)
    | none => x

/-- Model of open(p, "w") followed by write: overwrite an existing
file in place, create the file when the parent directory exists, and
fail (none) when the path is a directory or the parent is missing. -/
def writeFile (fs : FS) (p : Path) (c : Content) : Option FS :=
  match findE fs p with
  | some (Entry.file _) => some (setEntry fs p (Entry.file c))
  | some Entry.dir => none
  | none =>
    match p with
    | [] => none
    | _ :: _ =>
      if findE fs p.dropLast = some Entry.dir then some (setEntry fs p (Entry.file c))
      else none

/-- True when no binding in fs lies at or below p. -/
def cleanUnder (fs : FS) (p : Path) : Bool :=
  fs.all fun x => !(isPfxB p x.1)

def keysOf (fs : FS) : List Path :=
  fs.map fun x => x.1

def NodupKeys (fs : FS) : Prop :=
  (keysOf fs).Nodup

/-- Python str.replace scanning: Char-level helpers. -/
def containsSub : List Char → List Char → Bool
  | [], pat => isPfxB pat ([] : List Char)
  | c :: cs, pat => isPfxB pat (c :: cs) || containsSub cs pat

/-- Model of Python str.replace(old, new) for a non-empty pattern:
scan left to right, replacing each non-overlapping occurrence of old
(for an empty pattern the scan copies the string unchanged; the script
only ever replaces non-empty tokens).  The scan runs on structural
fuel, one unit per emitted character; replaceAll supplies the string
length, which always suffices because a match consumes at least one
character. -/
def replaceScan (old new : List Char) : Nat → List Char → List Char
  | _, [] => []
  | 0, s => s
  | k + 1, c :: cs =>
    if !old.isEmpty && isPfxB old (c :: cs) then
      new ++ replaceScan old new k (cs.drop (old.length - 1))
    else c :: replaceScan old new k cs

def replaceAll (s old new : List Char) : List Char :=
  replaceScan old new s.length s

/-- ASCII character helpers used to model Python str.title. -/
def dashToU (c : Char) : Char :=
  if c.toNat = 45 then '_' else c

def asciiLetter (c : Char) : Bool :=
  (65 ≤ c.toNat && c.toNat ≤ 90) || (97 ≤ c.toNat && c.toNat ≤ 122)

def upperA (c : Char) : Char :=
  if 97 ≤ c.toNat ∧ c.toNat ≤ 122 then Char.ofNat (c.toNat - 32) else c

def lowerA (c : Char) : Char :=
  if 65 ≤ c.toNat ∧ c.toNat ≤ 90 then Char.ofNat (c.toNat + 32) else c

/-- Model of Python str.title over ASCII: a letter is uppercased when
the previous character is not a letter and lowercased otherwise; the
flag records whether the previous character was a letter. -/
def pyTitleAux : Bool → List Char → List Char
  | _, [] => []
  | prev, c :: cs =>
    if asciiLetter c then (cond prev (lowerA c) (upperA c)) :: pyTitleAux true cs
    else c :: pyTitleAux false cs

/-- The type-name fragment the script derives from the id:
game_id.replace('-', '_').title().replace('_', ''). -/
def derivedFrag (gid : String) : Content :=
  (pyTitleAux false (gid.data.map dashToU)).filter fun c => decide (c.toNat ≠ 95)

/-- Modelled from the spec: the derived-name rule as the spec words it
(split the id on hyphen/underscore, capitalize the first character of
each non-empty segment, lowercase nothing else, concatenate). -/
def splitSegs : List Char → List (List Char)
  | [] => [[]]
  | c :: cs =>
    let r := splitSegs cs
    if c.toNat = 45 ∨ c.toNat = 95 then [] :: r
    else
      match r with
      | [] => [[c]]
      | s :: ss => (c :: s) :: ss

def capFirst : List Char → List Char
  | [] => []
  | c :: cs => upperA c :: cs

/-- Modelled from the spec: split on separators, capitalize the first
character of each non-empty segment, concatenate. -/
def specSplitCapFrag (gid : String) : Content :=
  ((((splitSegs gid.data).filter fun s => decide (s ≠ [])).map capFirst)).flatten

/-- Amended derived-name rule: capitalize exactly those letters that
start a maximal letter run (at the start of the id or right after a
non-letter character, separators and digits alike), then delete the
separators. -/
def capRuns : Bool → List Char → List Char
  | _, [] => []
  | prev, c :: cs =>
    if asciiLetter c then (cond prev c (upperA c)) :: capRuns true cs
    else c :: capRuns false cs

def runCapFrag (gid : String) : Content :=
  (capRuns false gid.data).filter fun c => decide (c.toNat ≠ 45 ∧ c.toNat ≠ 95)

def validChar (c : Char) : Bool :=
  (97 ≤ c.toNat && c.toNat ≤ 122) || (48 ≤ c.toNat && c.toNat ≤ 57) ||
    c.toNat = 45 || c.toNat = 95

def validId (gid : String) : Bool :=
  gid.data.all validChar

/-- Placeholder tokens of the template, as in the script. -/
def qualOld : Content := "com.roshni.games.game.GAME_ID".data

def qualNew (gid : String) : Content := ("com.roshni.games.game." ++ gid).data

def gidToken : Content := "GAME_ID".data

def pkgOld : Content := "package com.roshni.games.game.template".data

def pkgNew (gid : String) : Content := ("package com.roshni.games.game." ++ gid).data

def tmplToken : Content := "Template".data

def nsToken : Content := "com.roshni.games.game.template".data

/-- The build.gradle.kts rewrite of the script: qualified placeholder
first, bare placeholder second, both raw substring replacements. -/
def gradleRewrite (gid : String) (c : Content) : Content :=
  replaceAll (replaceAll c qualOld (qualNew gid)) gidToken gid.data

/-- The per-Kotlin-file rewrite of the script: package declaration
first, then every occurrence of Template. -/
def ktRewrite (gid : String) (c : Content) : Content :=
  replaceAll (replaceAll c pkgOld (pkgNew gid)) tmplToken (derivedFrag gid)

/-- The generated GameConfig.kt contents (the script's f-string). -/
def configContent (gid gname gcat : String) : Content :=
  ("package com.roshni.games.game." ++ gid ++
    "\n\n// Game configuration for " ++ gname ++
    "\nobject GameConfig \x7b\n    const val GAME_ID = \"" ++ gid ++
    "\"\n    const val GAME_NAME = \"" ++ gname ++
    "\"\n    const val CATEGORY = \"" ++ gcat ++
    "\"\n    const val VERSION = \"1.0.0\"\n    const val MIN_SDK = 24\n    const val TARGET_SDK = 34\n\x7d\n").data

/-- Fixed paths of the script (base_path parameterizes "game"). -/
def templatePath (base : String) : Path := [base, "template"]

def gamePath (base gid : String) : Path := [base, gid]

def srcSubRel : Path := ["src", "main", "kotlin", "com", "roshni", "games", "game", "template"]

def dstSubRel (gid : String) : Path := ["src", "main", "kotlin", "com", "roshni", "games", "game", gid]

def srcPath (base gid : String) : Path := gamePath base gid ++ srcSubRel

def dstPath (base gid : String) : Path := gamePath base gid ++ dstSubRel gid

def bgPath (base gid : String) : Path := gamePath base gid ++ ["build.gradle.kts"]

def cfgPath (base gid : String) : Path := dstPath base gid ++ ["GameConfig.kt"]

/-- Failure oracle: one switch per fallible filesystem primitive the
script performs; copyFail n fails the recursive copy after n copied
children, ktFail n fails the write of the n-th Kotlin file. -/
structure Inject where
  copyFail : Option Nat
  gradleFail : Bool
  renameFail : Bool
  ktFail : Option Nat
  configFail : Bool
  rmtreeFail : Bool
  deriving DecidableEq

def noInject : Inject := ⟨none, false, false, none, false, false⟩

inductive Outcome where
  | ret : Bool → FS → Outcome
  | crash : FS → Outcome
  deriving DecidableEq

def outFS : Outcome → FS
  | Outcome.ret _ fs => fs
  | Outcome.crash fs => fs

def retBool : Outcome → Option Bool
  | Outcome.ret b _ => some b
  | Outcome.crash _ => none

def isCrash : Outcome → Bool
  | Outcome.crash _ => true
  | Outcome.ret _ _ => false

/-- The proper descendants of src, re-rooted below dst. -/
def copyChildren (src dst : Path) : FS → FS
  | [] => []
  | x :: fs =>
    match stripPfx src x.1 with
    | some (r :: rs) => (dst ++ (r :: rs), x.2) :: copyChildren src dst fs
    | _ => copyChildren src dst fs

/-- Model of shutil.copytree(src, dst): scandir fails before any
mutation when src is not a directory; otherwise the dst directory is
created and the children are copied, an injected failure stopping
after copyFail children with dst left half-populated. -/
def copytreeM (inj : Inject) (fs : FS) (src dst : Path) : Except FS FS :=
  if findE fs src = some Entry.dir then
    match inj.copyFail with
    | some k => Except.error (fs ++ (dst, Entry.dir) :: (copyChildren src dst fs).take k)
    | none => Except.ok (fs ++ (dst, Entry.dir) :: copyChildren src dst fs)
  else Except.error fs

/-- Step 2 of the script: rewrite build.gradle.kts when present
(reading a directory of that name raises; a missing file is skipped). -/
def gradleStep (inj : Inject) (base gid : String) (fs : FS) : Except FS FS :=
  match findE fs (bgPath base gid) with
  | none => Except.ok fs
  | some Entry.dir => Except.error fs
  | some (Entry.file c) =>
    if inj.gradleFail then Except.error fs
    else
      match writeFile fs (bgPath base gid) (gradleRewrite gid c) with
      | some fs' => Except.ok fs'
      | none => Except.error fs

/-- Step 3 of the script: rename the template namespace directory when
present, silently skipping otherwise. -/
def renameStep (inj : Inject) (base gid : String) (fs : FS) : Except FS FS :=
  if (findE fs (srcPath base gid)).isSome then
    if inj.renameFail then Except.error fs
    else Except.ok (renameTree fs (srcPath base gid) (dstPath base gid))
  else Except.ok fs

/-- Names matched by rglob("*.kt"). -/
def isSfxB (pat s : List Char) : Bool :=
  isPfxB pat.reverse s.reverse

def isKtName (s : String) : Bool :=
  isSfxB ".kt".data s.data

def lastStr (l : List String) : String :=
  l.getLastD ""

/-- True when no directory entry carries a name matching *.kt (such a
directory would make the per-file rewrite loop raise on open). -/
def noKtDirs (fs : FS) : Bool :=
  fs.all fun x =>
    match x.2 with
    | Entry.dir => !(isKtName (lastStr x.1))
    | Entry.file _ => true

/-- Paths yielded by dst_path.rglob("*.kt"): every entry strictly
below root whose final component matches, directories included. -/
def ktFilesAux (root : Path) : FS → List Path
  | [] => []
  | x :: fs =>
    match stripPfx root x.1 with
    | some (r :: rs) =>
      if isKtName (lastStr (r :: rs)) then x.1 :: ktFilesAux root fs
      else ktFilesAux root fs
    | _ => ktFilesAux root fs

/-- Model of pathlib rglob: an empty iterator when the root is not a
directory. -/
def ktFiles (fs : FS) (root : Path) : List Path :=
  if findE fs root = some Entry.dir then ktFilesAux root fs else []

/-- Step 4 of the script: rewrite each matched Kotlin file in place;
reading a directory raises, and an injected failure aborts at the
indexed file. -/
def ktLoop (inj : Inject) (gid : String) : List Path → Nat → FS → Except FS FS
  | [], _, fs => Except.ok fs
  | p :: ps, i, fs =>
    match findE fs p with
    | some (Entry.file c) =>
      if inj.ktFail = some i then Except.error fs
      else
        match writeFile fs p (ktRewrite gid c) with
        | some fs' => ktLoop inj gid ps (i + 1) fs'
        | none => Except.error fs
    | _ => Except.error fs

def ktStep (inj : Inject) (base gid : String) (fs : FS) : Except FS FS :=
  ktLoop inj gid (ktFiles fs (dstPath base gid)) 0 fs

/-- Step 5 of the script: emit GameConfig.kt inside the renamed
directory. -/
def configStep (inj : Inject) (base gid gname gcat : String) (fs : FS) : Except FS FS :=
  if inj.configFail then Except.error fs
  else
    match writeFile fs (cfgPath base gid) (configContent gid gname gcat) with
    | some fs' => Except.ok fs'
    | none => Except.error fs

/-- The try block of setup_game_module: steps 1 to 5 in sequence, an
error carrying the filesystem at the point of failure. -/
def tryBlock (inj : Inject) (base gid gname gcat : String) (fs : FS) : Except FS FS :=
  match copytreeM inj fs (templatePath base) (gamePath base gid) with
  | Except.error f => Except.error f
  | Except.ok fs1 =>
    match gradleStep inj base gid fs1 with
    | Except.error f => Except.error f
    | Except.ok fs2 =>
      match renameStep inj base gid fs2 with
      | Except.error f => Except.error f
      | Except.ok fs3 =>
        match ktStep inj base gid fs3 with
        | Except.error f => Except.error f
        | Except.ok fs4 => configStep inj base gid gname gcat fs4

/-- Model of setup_game_module(game_id, game_name, category,
base_path): the pre-existence fast-fail guard, the try block, and the
except handler that deletes the half-created module; a failure of
the rollback deletion itself is not caught and crashes. -/
def setup_game_module (inj : Inject) (fs : FS) (gid gname gcat base : String) : Outcome :=
  if (findE fs (gamePath base gid)).isSome then Outcome.ret false fs
  else
    match tryBlock inj base gid gname gcat fs with
    | Except.ok fs' => Outcome.ret true fs'
    | Except.error fsE =>
      if (findE fsE (gamePath base gid)).isSome then
        if inj.rmtreeFail then Outcome.crash fsE
        else Outcome.ret false (rmtree fsE (gamePath base gid))
      else Outcome.ret false fsE

def fileAt (fs : FS) (p : Path) : Option Content :=
  match findE fs p with
  | some (Entry.file c) => some c
  | _ => none

def fileContains (fs : FS) (p : Path) (tok : Content) : Bool :=
  match fileAt fs p with
  | some c => containsSub c tok
  | none => false

/-- Concrete template fixtures used by witnesses and counterexamples. -/
def bgTmplContent : Content :=
  ("plugins \x7b\n    id(\"com.android.dynamic-feature\")\n\x7d\n\nandroid \x7b\n    namespace = \"com.roshni.games.game.GAME_ID\"\n\x7d\n\nval GAME_IDMARKER = \"GAME_ID\"\n").data

def ktTmplContent : Content :=
  ("package com.roshni.games.game.template\n\nimport com.roshni.games.game.template.util.TemplateHelper\n\n// Template main screen for TemplateScreenKind\nclass TemplateScreen \x7b\n    val tag = \"Template\"\n\x7d\n").data

def fsTmpl : FS :=
  [ (["game"], Entry.dir),
    (["game", "template"], Entry.dir),
    (["game", "template", "build.gradle.kts"], Entry.file bgTmplContent),
    (["game", "template", "src"], Entry.dir),
    (["game", "template", "src", "main"], Entry.dir),
    (["game", "template", "src", "main", "kotlin"], Entry.dir),
    (["game", "template", "src", "main", "kotlin", "com"], Entry.dir),
    (["game", "template", "src", "main", "kotlin", "com", "roshni"], Entry.dir),
    (["game", "template", "src", "main", "kotlin", "com", "roshni", "games"], Entry.dir),
    (["game", "template", "src", "main", "kotlin", "com", "roshni", "games", "game"], Entry.dir),
    (["game", "template", "src", "main", "kotlin", "com", "roshni", "games", "game", "template"], Entry.dir),
    (["game", "template", "src", "main", "kotlin", "com", "roshni", "games", "game", "template", "TemplateScreen.kt"], Entry.file ktTmplContent) ]

/-- Template missing the build descriptor but keeping the namespace
directory. -/
def fsTmplNoBg : FS :=
  [ (["game"], Entry.dir),
    (["game", "template"], Entry.dir),
    (["game", "template", "src"], Entry.dir),
    (["game", "template", "src", "main"], Entry.dir),
    (["game", "template", "src", "main", "kotlin"], Entry.dir),
    (["game", "template", "src", "main", "kotlin", "com"], Entry.dir),
    (["game", "template", "src", "main", "kotlin", "com", "roshni"], Entry.dir),
    (["game", "template", "src", "main", "kotlin", "com", "roshni", "games"], Entry.dir),
    (["game", "template", "src", "main", "kotlin", "com", "roshni", "games", "game"], Entry.dir),
    (["game", "template", "src", "main", "kotlin", "com", "roshni", "games", "game", "template"], Entry.dir),
    (["game", "template", "src", "main", "kotlin", "com", "roshni", "games", "game", "template", "TemplateScreen.kt"], Entry.file ktTmplContent) ]

/-- Template lacking both the build descriptor and the namespace
source subdirectory. -/
def fsTmplBare : FS :=
  [ (["game"], Entry.dir),
    (["game", "template"], Entry.dir),
    (["game", "template", "README.md"], Entry.file "hello".data) ]

/-! Basic lemmas about paths and the filesystem primitives. -/

theorem stripPfx_some {α : Type} [DecidableEq α] :
    ∀ (p q r : List α), stripPfx p q = some r → q = p ++ r := by
  intro p
  induction p with
  | nil =>
    intro q r h
    simp only [stripPfx, Option.some.injEq] at h
    simpa using h
  | cons a as ih =>
    intro q r h
    cases q with
    | nil => simp [stripPfx] at h
    | cons b bs =>
      by_cases hab : a = b
      · subst hab
        simp only [stripPfx, if_pos rfl] at h
        simpa using ih bs r h
      · simp only [stripPfx, if_neg hab] at h
        simp at h

theorem stripPfx_append {α : Type} [DecidableEq α] :
    ∀ (p r : List α), stripPfx p (p ++ r) = some r := by
  intro p
  induction p with
  | nil => intro r; rfl
  | cons a as ih => intro r; simp [stripPfx, ih]

theorem isPfxB_iff {α : Type} [DecidableEq α] (p q : List α) :
    isPfxB p q = true ↔ ∃ r, q = p ++ r := by
  constructor
  · intro h
    unfold isPfxB at h
    cases hs : stripPfx p q with
    | none => rw [hs] at h; simp at h
    | some r => exact ⟨r, stripPfx_some p q r hs⟩
  · rintro ⟨r, rfl⟩
    unfold isPfxB
    rw [stripPfx_append]
    rfl

theorem isPfxB_refl {α : Type} [DecidableEq α] (p : List α) : isPfxB p p = true :=
  (isPfxB_iff p p).mpr ⟨[], by simp⟩

theorem isPfxB_append {α : Type} [DecidableEq α] (p r : List α) : isPfxB p (p ++ r) = true :=
  (isPfxB_iff p (p ++ r)).mpr ⟨r, rfl⟩

theorem isPfxB_trans {α : Type} [DecidableEq α] {a b c : List α}
    (h1 : isPfxB a b = true) (h2 : isPfxB b c = true) : isPfxB a c = true := by
  rcases (isPfxB_iff a b).mp h1 with ⟨r, rfl⟩
  rcases (isPfxB_iff (a ++ r) c).mp h2 with ⟨s, rfl⟩
  exact (isPfxB_iff a ((a ++ r) ++ s)).mpr ⟨r ++ s, by simp⟩

theorem isPfxB_len_false {α : Type} [DecidableEq α] {p q : List α}
    (h : q.length < p.length) : isPfxB p q = false := by
  cases hb : isPfxB p q
  · rfl
  · rcases (isPfxB_iff p q).mp hb with ⟨r, rfl⟩
    rw [List.length_append] at h
    omega

theorem isPfxB_extend_false {α : Type} [DecidableEq α] (p : List α) (c : α) (cs : List α) :
    isPfxB (p ++ c :: cs) p = false :=
  isPfxB_len_false (by simp)

theorem append_cons_ne {α : Type} (p : List α) (c : α) (cs : List α) :
    p ++ c :: cs ≠ p := by
  intro h
  have := congrArg List.length h
  simp at this

theorem findE_append_none {fs ys : FS} {p : Path} (h : findE fs p = none) :
    findE (fs ++ ys) p = findE ys p := by
  induction fs with
  | nil => rfl
  | cons x fs ih =>
    by_cases hx : x.1 = p
    · rw [findE, if_pos hx] at h
      simp at h
    · rw [findE, if_neg hx] at h
      rw [List.cons_append, findE, if_neg hx]
      exact ih h

theorem findE_append_some {fs ys : FS} {p : Path} {e : Entry} (h : findE fs p = some e) :
    findE (fs ++ ys) p = some e := by
  induction fs with
  | nil => simp [findE] at h
  | cons x fs ih =>
    by_cases hx : x.1 = p
    · rw [findE, if_pos hx] at h
      rw [List.cons_append, findE, if_pos hx]
      exact h
    · rw [findE, if_neg hx] at h
      rw [List.cons_append, findE, if_neg hx]
      exact ih h

theorem findE_eraseP (fs : FS) (p q : Path) :
    findE (eraseP fs p) q = if q = p then none else findE fs q := by
  induction fs with
  | nil => simp [eraseP, findE]
  | cons x fs ih =>
    by_cases hx : x.1 = p
    · rw [eraseP, if_pos hx, ih]
      by_cases hq : q = p
      · simp [hq]
      · rw [if_neg hq, if_neg hq, findE, if_neg (fun hh => hq (by rw [← hh, hx]))]
    · rw [eraseP, if_neg hx, findE, findE]
      by_cases hq : x.1 = q
      · rw [if_pos hq, if_pos hq, if_neg (fun hh => hx (by rw [hq, hh]))]
      · rw [if_neg hq, if_neg hq, ih]

theorem findE_setEntry (fs : FS) (p : Path) (e : Entry) (q : Path) :
    findE (setEntry fs p e) q = if q = p then some e else findE fs q := by
  unfold setEntry
  rw [findE]
  by_cases hq : q = p
  · rw [if_pos (show (p, e).1 = q by rw [hq]), if_pos hq]
  · rw [if_neg (fun hh => hq hh.symm), if_neg hq, findE_eraseP, if_neg hq]

theorem findE_rmtree (fs : FS) (p q : Path) :
    findE (rmtree fs p) q = if isPfxB p q = true then none else findE fs q := by
  induction fs with
  | nil => simp [rmtree, findE]
  | cons x fs ih =>
    by_cases hx : isPfxB p x.1 = true
    · rw [rmtree, if_pos hx, ih]
      by_cases hq : isPfxB p q = true
      · rw [if_pos hq, if_pos hq]
      · rw [if_neg hq, if_neg hq, findE, if_neg (fun hh => hq (by rw [← hh]; exact hx))]
    · rw [rmtree, if_neg hx, findE, findE]
      by_cases hq : x.1 = q
      · rw [if_pos hq, if_pos hq, if_neg (fun hh => hx (by rw [hq]; exact hh))]
      · rw [if_neg hq, if_neg hq, ih]

theorem cleanUnder_tail {x : Path × Entry} {fs : FS} {p : Path}
    (h : cleanUnder (x :: fs) p = true) :
    isPfxB p x.1 = false ∧ cleanUnder fs p = true := by
  rw [cleanUnder, List.all_cons, Bool.and_eq_true] at h
  exact ⟨by simpa using h.1, h.2⟩

theorem cleanUnder_findE {fs : FS} {p q : Path} (hc : cleanUnder fs p = true)
    (hq : isPfxB p q = true) : findE fs q = none := by
  induction fs with
  | nil => rfl
  | cons x fs ih =>
    obtain ⟨h1, h2⟩ := cleanUnder_tail hc
    rw [findE, if_neg (fun hh => by rw [hh, hq] at h1; cases h1)]
    exact ih h2

theorem rmtree_cleanUnder {fs : FS} {p : Path} (hc : cleanUnder fs p = true) :
    rmtree fs p = fs := by
  induction fs with
  | nil => rfl
  | cons x fs ih =>
    obtain ⟨h1, h2⟩ := cleanUnder_tail hc
    rw [rmtree, if_neg (by rw [h1]; simp), ih h2]

theorem rmtree_append (xs ys : FS) (p : Path) :
    rmtree (xs ++ ys) p = rmtree xs p ++ rmtree ys p := by
  induction xs with
  | nil => rfl
  | cons x xs ih =>
    rw [List.cons_append, rmtree, rmtree]
    by_cases hx : isPfxB p x.1 = true
    · rw [if_pos hx, if_pos hx, ih]
    · rw [if_neg hx, if_neg hx, List.cons_append, ih]

theorem rmtree_all {l : FS} {p : Path} (h : ∀ y ∈ l, isPfxB p y.1 = true) :
    rmtree l p = [] := by
  induction l with
  | nil => rfl
  | cons x l ih =>
    rw [rmtree, if_pos (h x (List.mem_cons_self x l))]
    exact ih fun y hy => h y (List.mem_cons_of_mem x hy)

theorem rmtree_eraseP {p gp : Path} (h : isPfxB gp p = true) (fs : FS) :
    rmtree (eraseP fs p) gp = rmtree fs gp := by
  induction fs with
  | nil => rfl
  | cons x fs ih =>
    by_cases hx : x.1 = p
    · rw [eraseP, if_pos hx, ih, rmtree, if_pos (by rw [hx]; exact h)]
    · rw [eraseP, if_neg hx, rmtree, rmtree]
      by_cases hp : isPfxB gp x.1 = true
      · rw [if_pos hp, if_pos hp, ih]
      · rw [if_neg hp, if_neg hp, ih]

theorem rmtree_setEntry {p gp : Path} (h : isPfxB gp p = true) (fs : FS) (e : Entry) :
    rmtree (setEntry fs p e) gp = rmtree fs gp := by
  unfold setEntry
  rw [rmtree, if_pos h]
  exact rmtree_eraseP h fs

theorem rmtree_renameTree {a b gp : Path} (ha : isPfxB gp a = true)
    (hb : isPfxB gp b = true) (fs : FS) :
    rmtree (renameTree fs a b) gp = rmtree fs gp := by
  induction fs with
  | nil => rfl
  | cons x fs ih =>
    have hmap : renameTree (x :: fs) a b =
        (match stripPfx a x.1 with
          | some r => (b ++ r, x.2)
          | none => x) :: renameTree fs a b := by
      simp [renameTree]
    rw [hmap]
    cases hsp : stripPfx a x.1 with
    | some r =>
      have hx1 : x.1 = a ++ r := stripPfx_some a x.1 r hsp
      have hgx : isPfxB gp x.1 = true := by
        rw [hx1]; exact isPfxB_trans ha (isPfxB_append a r)
      have hgb : isPfxB gp (b ++ r) = true := isPfxB_trans hb (isPfxB_append b r)
      rw [rmtree, if_pos hgb, ih, rmtree, if_pos hgx]
    | none =>
      rw [rmtree, rmtree]
      by_cases hp : isPfxB gp x.1 = true
      · rw [if_pos hp, if_pos hp, ih]
      · rw [if_neg hp, if_neg hp, ih]

theorem findE_some_mem {fs : FS} {q : Path} {e : Entry} (h : findE fs q = some e) :
    (q, e) ∈ fs := by
  induction fs with
  | nil => simp [findE] at h
  | cons x fs ih =>
    by_cases hx : x.1 = q
    · rw [findE, if_pos hx] at h
      have hxe : x = (q, e) := by
        cases x
        simp_all
      rw [← hxe]
      exact List.mem_cons_self x fs
    · rw [findE, if_neg hx] at h
      exact List.mem_cons_of_mem x (ih h)

theorem findE_isSome_of_mem {fs : FS} {x : Path × Entry} (h : x ∈ fs) :
    (findE fs x.1).isSome = true := by
  induction fs with
  | nil => cases h
  | cons y fs ih =>
    rcases List.mem_cons.mp h with h1 | h2
    · rw [h1, findE, if_pos rfl]
      rfl
    · rw [findE]
      by_cases hy : y.1 = x.1
      · rw [if_pos hy]; rfl
      · rw [if_neg hy]; exact ih h2

theorem append_cancel {α : Type} (p : List α) {x y : List α} (h : p ++ x = p ++ y) : x = y := by
  induction p with
  | nil => simpa using h
  | cons a as ih =>
    simp only [List.cons_append, List.cons.injEq] at h
    exact ih h.2

theorem writeFile_file_some {fs : FS} {p : Path} {c0 : Content}
    (h : findE fs p = some (Entry.file c0)) (c : Content) :
    writeFile fs p c = some (setEntry fs p (Entry.file c)) := by
  unfold writeFile
  rw [h]

theorem writeFile_some_eq {fs fs' : FS} {p : Path} {c : Content}
    (h : writeFile fs p c = some fs') : fs' = setEntry fs p (Entry.file c) := by
  unfold writeFile at h
  cases hf : findE fs p with
  | some e =>
    rw [hf] at h
    cases e with
    | dir => simp at h
    | file c0 => simpa using h.symm
  | none =>
    rw [hf] at h
    cases p with
    | nil => simp at h
    | cons a as =>
      by_cases hd : findE fs (a :: as).dropLast = some Entry.dir
      · rw [if_pos hd] at h
        simpa using h.symm
      · rw [if_neg hd] at h
        simp at h

/-! Lemmas about the recursive copy. -/

theorem findE_copyChildren (src dst : Path) (fs : FS) (r : String) (rs : List String) :
    findE (copyChildren src dst fs) (dst ++ r :: rs) = findE fs (src ++ r :: rs) := by
  induction fs with
  | nil => rfl
  | cons x fs ih =>
    cases hsp : stripPfx src x.1 with
    | some rel =>
      cases rel with
      | nil =>
        have hx1 : x.1 = src := by simpa using stripPfx_some src x.1 [] hsp
        have hcc : copyChildren src dst (x :: fs) = copyChildren src dst fs := by
          simp [copyChildren, hsp]
        have hskip : findE (x :: fs) (src ++ r :: rs) = findE fs (src ++ r :: rs) := by
          rw [findE, if_neg]
          intro hh
          rw [hx1] at hh
          exact append_cons_ne src r rs hh.symm
        rw [hcc, ih, hskip]
      | cons a as =>
        have hx1 : x.1 = src ++ a :: as := stripPfx_some src x.1 (a :: as) hsp
        have hcc : copyChildren src dst (x :: fs) =
            (dst ++ a :: as, x.2) :: copyChildren src dst fs := by
          simp [copyChildren, hsp]
        rw [hcc, findE, findE]
        by_cases he : a :: as = r :: rs
        · rw [if_pos (show (dst ++ a :: as, x.2).1 = dst ++ r :: rs by rw [he]),
            if_pos (by rw [hx1, he])]
        · rw [if_neg (fun hh => he (append_cancel dst hh)),
            if_neg (by intro hh; exact he (append_cancel src (by rw [← hx1, hh])))]
          exact ih
    | none =>
      have hcc : copyChildren src dst (x :: fs) = copyChildren src dst fs := by
        simp [copyChildren, hsp]
      have hskip : findE (x :: fs) (src ++ r :: rs) = findE fs (src ++ r :: rs) := by
        rw [findE, if_neg]
        intro hh
        rw [hh, stripPfx_append] at hsp
        cases hsp
      rw [hcc, ih, hskip]

theorem mem_copyChildren_pfx {src dst : Path} {fs : FS} {y : Path × Entry}
    (h : y ∈ copyChildren src dst fs) : isPfxB dst y.1 = true := by
  induction fs with
  | nil => cases h
  | cons x fs ih =>
    revert h
    cases hsp : stripPfx src x.1 with
    | some rel =>
      cases rel with
      | nil =>
        intro h
        rw [show copyChildren src dst (x :: fs) = copyChildren src dst fs by
          simp [copyChildren, hsp]] at h
        exact ih h
      | cons a as =>
        intro h
        rw [show copyChildren src dst (x :: fs) =
            (dst ++ a :: as, x.2) :: copyChildren src dst fs by
          simp [copyChildren, hsp]] at h
        rcases List.mem_cons.mp h with h1 | h2
        · rw [h1]
          exact isPfxB_append dst (a :: as)
        · exact ih h2
    | none =>
      intro h
      rw [show copyChildren src dst (x :: fs) = copyChildren src dst fs by
        simp [copyChildren, hsp]] at h
      exact ih h

theorem findE_none_of_all_pfx {l : FS} {dst q : Path}
    (hall : ∀ y ∈ l, isPfxB dst y.1 = true) (hq : isPfxB dst q = false) :
    findE l q = none := by
  induction l with
  | nil => rfl
  | cons x l ih =>
    rw [findE, if_neg]
    · exact ih fun y hy => hall y (List.mem_cons_of_mem x hy)
    · intro hh
      have := hall x (List.mem_cons_self x l)
      rw [hh, hq] at this
      cases this

theorem copytree_ok_inv {inj : Inject} {fs fs1 : FS} {src dst : Path}
    (h : copytreeM inj fs src dst = Except.ok fs1) :
    findE fs src = some Entry.dir ∧ inj.copyFail = none ∧
      fs1 = fs ++ (dst, Entry.dir) :: copyChildren src dst fs := by
  unfold copytreeM at h
  by_cases hdir : findE fs src = some Entry.dir
  · rw [if_pos hdir] at h
    cases hcf : inj.copyFail with
    | some k => rw [hcf] at h; cases h
    | none =>
      rw [hcf] at h
      exact ⟨hdir, rfl, by simpa using h.symm⟩
  · rw [if_neg hdir] at h
    cases h

theorem copytree_err_inv {inj : Inject} {fs fsE : FS} {src dst : Path}
    (h : copytreeM inj fs src dst = Except.error fsE) :
    fsE = fs ∨ ∃ l, (∀ y ∈ l, isPfxB dst y.1 = true) ∧
      fsE = fs ++ (dst, Entry.dir) :: l := by
  unfold copytreeM at h
  by_cases hdir : findE fs src = some Entry.dir
  · rw [if_pos hdir] at h
    cases hcf : inj.copyFail with
    | some k =>
      rw [hcf] at h
      right
      refine ⟨(copyChildren src dst fs).take k, ?_, by simpa using h.symm⟩
      intro y hy
      exact mem_copyChildren_pfx (List.mem_of_mem_take hy)
    | none => rw [hcf] at h; cases h
  · rw [if_neg hdir] at h
    left
    simpa using h.symm

theorem copytree_shape_findE {fs : FS} {dst q : Path} {l : FS}
    (hall : ∀ y ∈ l, isPfxB dst y.1 = true) (hq : isPfxB dst q = false) :
    findE (fs ++ (dst, Entry.dir) :: l) q = findE fs q := by
  cases hf : findE fs q with
  | some e => exact findE_append_some hf
  | none =>
    rw [findE_append_none hf, findE, if_neg, findE_none_of_all_pfx hall hq]
    intro hh
    rw [show q = dst from hh.symm, isPfxB_refl dst] at hq
    cases hq

theorem copytree_shape_rmtree {fs : FS} {dst gp : Path} {l : FS}
    (hall : ∀ y ∈ l, isPfxB dst y.1 = true) (hgp : isPfxB gp dst = true) :
    rmtree (fs ++ (dst, Entry.dir) :: l) gp = rmtree fs gp := by
  rw [rmtree_append]
  rw [show rmtree ((dst, Entry.dir) :: l) gp = [] from rmtree_all ?_, List.append_nil]
  intro y hy
  rcases List.mem_cons.mp hy with h1 | h2
  · rw [h1]
    exact hgp
  · exact isPfxB_trans hgp (hall y h2)

theorem copytree_ok_findE {inj : Inject} {fs fs1 : FS} {src dst : Path}
    (hclean : cleanUnder fs dst = true)
    (h : copytreeM inj fs src dst = Except.ok fs1) (rel : Path) :
    findE fs1 (dst ++ rel) = findE fs (src ++ rel) := by
  obtain ⟨hdir, _, rfl⟩ := copytree_ok_inv h
  have hnone : findE fs (dst ++ rel) = none :=
    cleanUnder_findE hclean (isPfxB_append dst rel)
  rw [findE_append_none hnone]
  cases rel with
  | nil =>
    rw [findE, if_pos (by simp)]
    rw [List.append_nil, hdir]
  | cons r rs =>
    rw [findE, if_neg, findE_copyChildren]
    intro hh
    exact append_cons_ne dst r rs hh.symm

/-! Lemmas about the namespace-directory rename. -/

theorem renameTree_cons (x : Path × Entry) (fs : FS) (a b : Path) :
    renameTree (x :: fs) a b =
      (match stripPfx a x.1 with
        | some r => (b ++ r, x.2)
        | none => x) :: renameTree fs a b := by
  simp [renameTree]

theorem findE_cons_tail {x : Path × Entry} {fs : FS} {q : Path}
    (h : findE (x :: fs) q = none) : findE fs q = none := by
  rw [findE] at h
  by_cases hx : x.1 = q
  · rw [if_pos hx] at h
    cases h
  · rw [if_neg hx] at h
    exact h

theorem renameTree_findE_under {fs : FS} {a b : Path}
    (hcb : ∀ q, isPfxB b q = true → findE fs q = none) (rel : Path) :
    findE (renameTree fs a b) (b ++ rel) = findE fs (a ++ rel) := by
  induction fs with
  | nil => rfl
  | cons x fs ih =>
    have hcb' : ∀ q, isPfxB b q = true → findE fs q = none := fun q hq =>
      findE_cons_tail (hcb q hq)
    rw [renameTree_cons]
    cases hsp : stripPfx a x.1 with
    | some r =>
      have hx1 : x.1 = a ++ r := stripPfx_some a x.1 r hsp
      rw [findE, findE]
      by_cases he : r = rel
      · rw [if_pos (show (b ++ r, x.2).1 = b ++ rel by rw [he]), if_pos (by rw [hx1, he])]
      · rw [if_neg (fun hh => he (append_cancel b hh)),
          if_neg (by intro hh; exact he (append_cancel a (by rw [← hx1, hh])))]
        exact ih hcb'
    | none =>
      rw [findE, findE]
      have hxb : ¬ x.1 = b ++ rel := by
        intro hh
        have := hcb x.1 (by rw [hh]; exact isPfxB_append b rel)
        rw [findE, if_pos rfl] at this
        cases this
      have hxa : ¬ x.1 = a ++ rel := by
        intro hh
        rw [hh, stripPfx_append] at hsp
        cases hsp
      rw [if_neg hxb, if_neg hxa]
      exact ih hcb'

theorem renameTree_findE_other {fs : FS} {a b q : Path}
    (hqa : isPfxB a q = false) (hqb : isPfxB b q = false) :
    findE (renameTree fs a b) q = findE fs q := by
  induction fs with
  | nil => rfl
  | cons x fs ih =>
    rw [renameTree_cons]
    cases hsp : stripPfx a x.1 with
    | some r =>
      have hx1 : x.1 = a ++ r := stripPfx_some a x.1 r hsp
      rw [findE, findE]
      rw [if_neg (show ¬ (b ++ r, x.2).1 = q by
        intro hh
        rw [← hh, isPfxB_append b r] at hqb
        cases hqb)]
      rw [if_neg (show ¬ x.1 = q by
        intro hh
        rw [← hh, hx1, isPfxB_append a r] at hqa
        cases hqa)]
      exact ih
    | none =>
      rw [findE, findE]
      by_cases hx : x.1 = q
      · rw [if_pos hx, if_pos hx]
      · rw [if_neg hx, if_neg hx]
        exact ih

/-! Lemmas about key uniqueness. -/

theorem keysOf_cons (x : Path × Entry) (fs : FS) : keysOf (x :: fs) = x.1 :: keysOf fs := rfl

theorem mem_keysOf_iff {fs : FS} {q : Path} : q ∈ keysOf fs ↔ ∃ e, (q, e) ∈ fs := by
  unfold keysOf
  rw [List.mem_map]
  constructor
  · rintro ⟨x, hx, rfl⟩
    exact ⟨x.2, by simpa using hx⟩
  · rintro ⟨e, he⟩
    exact ⟨(q, e), he, rfl⟩

theorem not_mem_key_of_findE_none {fs : FS} {q : Path} (h : findE fs q = none) :
    q ∉ keysOf fs := by
  intro hmem
  rcases mem_keysOf_iff.mp hmem with ⟨e, he⟩
  have := findE_isSome_of_mem he
  rw [show ((q, e).1 : Path) = q from rfl, h] at this
  cases this

theorem cleanUnder_mem {fs : FS} {p : Path} (hc : cleanUnder fs p = true)
    {x : Path × Entry} (hx : x ∈ fs) : isPfxB p x.1 = false := by
  have := List.all_eq_true.mp hc x hx
  simpa using this

theorem eraseP_sublist (fs : FS) (p : Path) : List.Sublist (eraseP fs p) fs := by
  induction fs with
  | nil => exact List.Sublist.refl []
  | cons x fs ih =>
    by_cases hx : x.1 = p
    · rw [eraseP, if_pos hx]
      exact ih.cons x
    · rw [eraseP, if_neg hx]
      exact ih.cons₂ x

theorem ndk_setEntry {fs : FS} {p : Path} {e : Entry} (h : NodupKeys fs) :
    NodupKeys (setEntry fs p e) := by
  unfold NodupKeys
  rw [show keysOf (setEntry fs p e) = p :: keysOf (eraseP fs p) from rfl, List.nodup_cons]
  refine ⟨?_, ?_⟩
  · intro hmem
    rcases mem_keysOf_iff.mp hmem with ⟨e2, he2⟩
    have hs := findE_isSome_of_mem he2
    rw [show ((p, e2).1 : Path) = p from rfl, findE_eraseP] at hs
    simp at hs
  · have h2 := List.Sublist.map (fun x : Path × Entry => x.1) (eraseP_sublist fs p)
    exact h2.nodup (show (List.map (fun x : Path × Entry => x.1) fs).Nodup from h)

theorem findE_eq_of_mem_ndk {fs : FS} {q : Path} {e : Entry}
    (hnd : NodupKeys fs) (h : (q, e) ∈ fs) : findE fs q = some e := by
  induction fs with
  | nil => cases h
  | cons x fs ih =>
    rw [NodupKeys, keysOf_cons, List.nodup_cons] at hnd
    rcases List.mem_cons.mp h with h1 | h2
    · rw [← h1, findE, if_pos rfl]
    · rw [findE]
      by_cases hx : x.1 = q
      · exfalso
        apply hnd.1
        rw [hx]
        exact mem_keysOf_iff.mpr ⟨e, h2⟩
      · rw [if_neg hx]
        exact ih hnd.2 h2

theorem mem_keys_copyChildren {src dst : Path} {fs : FS} {q : Path}
    (h : q ∈ keysOf (copyChildren src dst fs)) :
    ∃ a as, q = dst ++ a :: as ∧ (src ++ a :: as) ∈ keysOf fs := by
  induction fs with
  | nil => cases h
  | cons x fs ih =>
    revert h
    cases hsp : stripPfx src x.1 with
    | some rel =>
      cases rel with
      | nil =>
        intro h
        rw [show copyChildren src dst (x :: fs) = copyChildren src dst fs by
          simp [copyChildren, hsp]] at h
        rcases ih h with ⟨a, as, h1, h2⟩
        exact ⟨a, as, h1, List.mem_cons_of_mem x.1 h2⟩
      | cons a as =>
        intro h
        rw [show copyChildren src dst (x :: fs) =
            (dst ++ a :: as, x.2) :: copyChildren src dst fs by
          simp [copyChildren, hsp], keysOf_cons] at h
        rcases List.mem_cons.mp h with h1 | h2
        · refine ⟨a, as, by simpa using h1, ?_⟩
          rw [← stripPfx_some src x.1 (a :: as) hsp]
          exact List.mem_cons_self x.1 (keysOf fs)
        · rcases ih h2 with ⟨a2, as2, h3, h4⟩
          exact ⟨a2, as2, h3, List.mem_cons_of_mem x.1 h4⟩
    | none =>
      intro h
      rw [show copyChildren src dst (x :: fs) = copyChildren src dst fs by
        simp [copyChildren, hsp]] at h
      rcases ih h with ⟨a, as, h1, h2⟩
      exact ⟨a, as, h1, List.mem_cons_of_mem x.1 h2⟩

theorem ndk_copyChildren {src dst : Path} {fs : FS} (hnd : NodupKeys fs) :
    NodupKeys (copyChildren src dst fs) := by
  induction fs with
  | nil => exact List.nodup_nil
  | cons x fs ih =>
    rw [NodupKeys, keysOf_cons, List.nodup_cons] at hnd
    cases hsp : stripPfx src x.1 with
    | some rel =>
      cases rel with
      | nil =>
        rw [show copyChildren src dst (x :: fs) = copyChildren src dst fs by
          simp [copyChildren, hsp]]
        exact ih hnd.2
      | cons a as =>
        rw [show copyChildren src dst (x :: fs) =
            (dst ++ a :: as, x.2) :: copyChildren src dst fs by
          simp [copyChildren, hsp]]
        rw [NodupKeys, keysOf_cons, List.nodup_cons]
        refine ⟨?_, ih hnd.2⟩
        intro hmem
        rcases mem_keys_copyChildren hmem with ⟨a2, as2, h1, h2⟩
        have : (a : String) :: as = a2 :: as2 := append_cancel dst h1
        rw [← this] at h2
        rw [← stripPfx_some src x.1 (a :: as) hsp] at h2
        exact hnd.1 h2
    | none =>
      rw [show copyChildren src dst (x :: fs) = copyChildren src dst fs by
        simp [copyChildren, hsp]]
      exact ih hnd.2

theorem ndk_copytree {src dst : Path} {fs : FS} (hnd : NodupKeys fs)
    (hclean : cleanUnder fs dst = true) :
    NodupKeys (fs ++ (dst, Entry.dir) :: copyChildren src dst fs) := by
  unfold NodupKeys
  rw [show keysOf (fs ++ (dst, Entry.dir) :: copyChildren src dst fs)
      = keysOf fs ++ dst :: keysOf (copyChildren src dst fs) by simp [keysOf]]
  rw [List.nodup_append]
  refine ⟨hnd, ?_, ?_⟩
  · rw [List.nodup_cons]
    refine ⟨?_, ndk_copyChildren hnd⟩
    intro hmem
    rcases mem_keys_copyChildren hmem with ⟨a, as, hq, _⟩
    exact append_cons_ne dst a as hq.symm
  · intro q hq hq2
    have hnpfx : isPfxB dst q = false := by
      rcases mem_keysOf_iff.mp hq with ⟨e, he⟩
      exact cleanUnder_mem hclean he
    rcases List.mem_cons.mp hq2 with h1 | h2
    · rw [h1, isPfxB_refl] at hnpfx
      cases hnpfx
    · rcases mem_keys_copyChildren h2 with ⟨a, as, hq3, _⟩
      rw [hq3, isPfxB_append] at hnpfx
      cases hnpfx

theorem mem_keys_renameTree {fs : FS} {a b q : Path}
    (h : q ∈ keysOf (renameTree fs a b)) :
    ∃ k, k ∈ keysOf fs ∧
      ((∃ r, stripPfx a k = some r ∧ q = b ++ r) ∨ (stripPfx a k = none ∧ q = k)) := by
  induction fs with
  | nil => cases h
  | cons x fs ih =>
    rw [renameTree_cons, keysOf_cons] at h
    rcases List.mem_cons.mp h with h1 | h2
    · refine ⟨x.1, List.mem_cons_self x.1 (keysOf fs), ?_⟩
      revert h1
      cases hsp : stripPfx a x.1 with
      | some r =>
        intro h1
        exact Or.inl ⟨r, rfl, by simpa using h1⟩
      | none =>
        intro h1
        exact Or.inr ⟨rfl, by simpa using h1⟩
    · rcases ih h2 with ⟨k, hk, hcase⟩
      exact ⟨k, List.mem_cons_of_mem x.1 hk, hcase⟩

theorem ndk_renameTree {fs : FS} {a b : Path} (hnd : NodupKeys fs)
    (hcb : ∀ q, isPfxB b q = true → findE fs q = none) :
    NodupKeys (renameTree fs a b) := by
  induction fs with
  | nil => exact List.nodup_nil
  | cons x fs ih =>
    rw [NodupKeys, keysOf_cons, List.nodup_cons] at hnd
    have hcb' : ∀ q, isPfxB b q = true → findE fs q = none := fun q hq =>
      findE_cons_tail (hcb q hq)
    rw [renameTree_cons]
    rw [NodupKeys, keysOf_cons, List.nodup_cons]
    refine ⟨?_, ih hnd.2 hcb'⟩
    intro hmem
    cases hsp : stripPfx a x.1 with
    | some r =>
      simp only [hsp] at hmem
      rcases mem_keys_renameTree hmem with ⟨k, hk, hcase⟩
      rcases hcase with ⟨r2, hsp2, heq⟩ | ⟨_, heq⟩
      · have hr : r = r2 := append_cancel b heq
        have hk2 : k = a ++ r2 := stripPfx_some a k r2 hsp2
        have hx1 : x.1 = a ++ r := stripPfx_some a x.1 r hsp
        rw [hk2, ← hr, ← hx1] at hk
        exact hnd.1 hk
      · have hbk : isPfxB b k = true := by rw [← heq]; exact isPfxB_append b r
        have := hcb k hbk
        have hkn := not_mem_key_of_findE_none (findE_cons_tail this)
        exact hkn hk
    | none =>
      simp only [hsp] at hmem
      rcases mem_keys_renameTree hmem with ⟨k, hk, hcase⟩
      rcases hcase with ⟨r2, hsp2, heq⟩ | ⟨_, heq⟩
      · have : isPfxB b x.1 = true := by rw [heq]; exact isPfxB_append b r2
        have h0 := hcb x.1 this
        rw [findE, if_pos rfl] at h0
        cases h0
      · rw [← heq] at hk
        exact hnd.1 hk

/-! Lemmas about the Kotlin file scan and rewrite loop. -/

theorem ktFilesAux_cons_sel {root : Path} {x : Path × Entry} {r : String} {rs : List String}
    (hsp : stripPfx root x.1 = some (r :: rs))
    (hkt : isKtName (lastStr (r :: rs)) = true) (fs : FS) :
    ktFilesAux root (x :: fs) = x.1 :: ktFilesAux root fs := by
  simp [ktFilesAux, hsp, hkt]

theorem ktFilesAux_cons_skip {root : Path} {x : Path × Entry} (fs : FS)
    (h : ∀ r rs, stripPfx root x.1 = some (r :: rs) → isKtName (lastStr (r :: rs)) = false) :
    ktFilesAux root (x :: fs) = ktFilesAux root fs := by
  cases hsp : stripPfx root x.1 with
  | some rel =>
    cases rel with
    | nil => simp [ktFilesAux, hsp]
    | cons r rs => simp [ktFilesAux, hsp, h r rs hsp]
  | none => simp [ktFilesAux, hsp]

theorem mem_ktFilesAux_inv {root : Path} {fs : FS} {q : Path}
    (h : q ∈ ktFilesAux root fs) :
    ∃ r rs, stripPfx root q = some (r :: rs) ∧ isKtName (lastStr (r :: rs)) = true ∧
      q ∈ keysOf fs := by
  induction fs with
  | nil => cases h
  | cons x fs ih =>
    revert h
    cases hsp : stripPfx root x.1 with
    | some rel =>
      cases rel with
      | nil =>
        intro h
        rw [show ktFilesAux root (x :: fs) = ktFilesAux root fs by simp [ktFilesAux, hsp]] at h
        rcases ih h with ⟨r, rs, h1, h2, h3⟩
        exact ⟨r, rs, h1, h2, List.mem_cons_of_mem x.1 h3⟩
      | cons a as =>
        by_cases hkt : isKtName (lastStr (a :: as)) = true
        · intro h
          rw [ktFilesAux_cons_sel hsp hkt] at h
          rcases List.mem_cons.mp h with h1 | h2
          · exact ⟨a, as, by rw [h1]; exact hsp, hkt, by
              rw [h1]; exact List.mem_cons_self x.1 (keysOf fs)⟩
          · rcases ih h2 with ⟨r, rs, h3, h4, h5⟩
            exact ⟨r, rs, h3, h4, List.mem_cons_of_mem x.1 h5⟩
        · intro h
          rw [show ktFilesAux root (x :: fs) = ktFilesAux root fs by
            simp [ktFilesAux, hsp, Bool.eq_false_iff.mpr hkt]] at h
          rcases ih h with ⟨r, rs, h1, h2, h3⟩
          exact ⟨r, rs, h1, h2, List.mem_cons_of_mem x.1 h3⟩
    | none =>
      intro h
      rw [show ktFilesAux root (x :: fs) = ktFilesAux root fs by simp [ktFilesAux, hsp]] at h
      rcases ih h with ⟨r, rs, h1, h2, h3⟩
      exact ⟨r, rs, h1, h2, List.mem_cons_of_mem x.1 h3⟩

theorem mem_ktFilesAux_of {root : Path} {fs : FS} {x : Path × Entry} (hx : x ∈ fs)
    {r : String} {rs : List String} (hsp : stripPfx root x.1 = some (r :: rs))
    (hkt : isKtName (lastStr (r :: rs)) = true) : x.1 ∈ ktFilesAux root fs := by
  induction fs with
  | nil => cases hx
  | cons y fs ih =>
    rcases List.mem_cons.mp hx with h1 | h2
    · rw [← h1, ktFilesAux_cons_sel hsp hkt]
      exact List.mem_cons_self x.1 (ktFilesAux root fs)
    · cases hsp2 : stripPfx root y.1 with
      | some rel =>
        cases rel with
        | nil =>
          rw [show ktFilesAux root (y :: fs) = ktFilesAux root fs by simp [ktFilesAux, hsp2]]
          exact ih h2
        | cons a as =>
          by_cases hkt2 : isKtName (lastStr (a :: as)) = true
          · rw [ktFilesAux_cons_sel hsp2 hkt2]
            exact List.mem_cons_of_mem y.1 (ih h2)
          · rw [show ktFilesAux root (y :: fs) = ktFilesAux root fs by
              simp [ktFilesAux, hsp2, Bool.eq_false_iff.mpr hkt2]]
            exact ih h2
      | none =>
        rw [show ktFilesAux root (y :: fs) = ktFilesAux root fs by simp [ktFilesAux, hsp2]]
        exact ih h2

theorem ktFilesAux_sublist (root : Path) (fs : FS) : List.Sublist (ktFilesAux root fs) (keysOf fs) := by
  induction fs with
  | nil => exact List.Sublist.refl []
  | cons x fs ih =>
    rw [keysOf_cons]
    cases hsp : stripPfx root x.1 with
    | some rel =>
      cases rel with
      | nil =>
        rw [show ktFilesAux root (x :: fs) = ktFilesAux root fs by simp [ktFilesAux, hsp]]
        exact ih.cons x.1
      | cons a as =>
        by_cases hkt : isKtName (lastStr (a :: as)) = true
        · rw [ktFilesAux_cons_sel hsp hkt]
          exact ih.cons₂ x.1
        · rw [show ktFilesAux root (x :: fs) = ktFilesAux root fs by
            simp [ktFilesAux, hsp, Bool.eq_false_iff.mpr hkt]]
          exact ih.cons x.1
    | none =>
      rw [show ktFilesAux root (x :: fs) = ktFilesAux root fs by simp [ktFilesAux, hsp]]
      exact ih.cons x.1

theorem ktFiles_nodup {fs : FS} {root : Path} (hnd : NodupKeys fs) :
    (ktFiles fs root).Nodup := by
  unfold ktFiles
  by_cases hdir : findE fs root = some Entry.dir
  · rw [if_pos hdir]
    exact (ktFilesAux_sublist root fs).nodup hnd
  · rw [if_neg hdir]
    exact List.nodup_nil

theorem ktFiles_strict_under {fs : FS} {root : Path} {q : Path} (h : q ∈ ktFiles fs root) :
    ∃ r rs, q = root ++ r :: rs := by
  unfold ktFiles at h
  by_cases hdir : findE fs root = some Entry.dir
  · rw [if_pos hdir] at h
    rcases mem_ktFilesAux_inv h with ⟨r, rs, h1, _, _⟩
    exact ⟨r, rs, stripPfx_some root q (r :: rs) h1⟩
  · rw [if_neg hdir] at h
    cases h

theorem ktLoop_frame {inj : Inject} {gid : String} :
    ∀ (ps : List Path) (i : Nat) (fs fs' : FS),
      (ktLoop inj gid ps i fs = Except.ok fs' ∨ ktLoop inj gid ps i fs = Except.error fs') →
      ∀ q : Path, (∀ p ∈ ps, p ≠ q) → findE fs' q = findE fs q := by
  intro ps
  induction ps with
  | nil =>
    intro i fs fs' h _ _
    rcases h with h | h
    · rw [show ktLoop inj gid [] i fs = Except.ok fs from rfl] at h
      injection h with h2
      rw [h2]
    · rw [show ktLoop inj gid [] i fs = Except.ok fs from rfl] at h
      exact Except.noConfusion h
  | cons p ps ih =>
    intro i fs fs' h q hq
    have hpq : ¬ q = p := fun hqp => hq p (List.mem_cons_self p ps) hqp.symm
    have hq' : ∀ p' ∈ ps, p' ≠ q := fun p' hp' => hq p' (List.mem_cons_of_mem p hp')
    cases hf : findE fs p with
    | some e =>
      cases e with
      | file c =>
        by_cases hkf : inj.ktFail = some i
        · rcases h with h | h
          · simp only [ktLoop, hf, if_pos hkf] at h
            exact Except.noConfusion h
          · simp only [ktLoop, hf, if_pos hkf] at h
            injection h with h2
            rw [h2]
        · have hw := writeFile_file_some hf (ktRewrite gid c)
          rcases h with h | h
          · simp only [ktLoop, hf, if_neg hkf, hw] at h
            rw [ih (i + 1) _ fs' (Or.inl h) q hq', findE_setEntry, if_neg hpq]
          · simp only [ktLoop, hf, if_neg hkf, hw] at h
            rw [ih (i + 1) _ fs' (Or.inr h) q hq', findE_setEntry, if_neg hpq]
      | dir =>
        rcases h with h | h
        · simp only [ktLoop, hf] at h
          exact Except.noConfusion h
        · simp only [ktLoop, hf] at h
          injection h with h2
          rw [h2]
    | none =>
      rcases h with h | h
      · simp only [ktLoop, hf] at h
        exact Except.noConfusion h
      · simp only [ktLoop, hf] at h
        injection h with h2
        rw [h2]

theorem ktLoop_rmtree_inv {inj : Inject} {gid : String} {gp : Path} :
    ∀ (ps : List Path) (i : Nat) (fs fs' : FS),
      (∀ p ∈ ps, isPfxB gp p = true) →
      (ktLoop inj gid ps i fs = Except.ok fs' ∨ ktLoop inj gid ps i fs = Except.error fs') →
      rmtree fs' gp = rmtree fs gp := by
  intro ps
  induction ps with
  | nil =>
    intro i fs fs' _ h
    rcases h with h | h
    · rw [show ktLoop inj gid [] i fs = Except.ok fs from rfl] at h
      injection h with h2
      rw [h2]
    · rw [show ktLoop inj gid [] i fs = Except.ok fs from rfl] at h
      exact Except.noConfusion h
  | cons p ps ih =>
    intro i fs fs' hall h
    have hp : isPfxB gp p = true := hall p (List.mem_cons_self p ps)
    have hall' : ∀ p' ∈ ps, isPfxB gp p' = true := fun p' hp' =>
      hall p' (List.mem_cons_of_mem p hp')
    cases hf : findE fs p with
    | some e =>
      cases e with
      | file c =>
        by_cases hkf : inj.ktFail = some i
        · rcases h with h | h
          · simp only [ktLoop, hf, if_pos hkf] at h
            exact Except.noConfusion h
          · simp only [ktLoop, hf, if_pos hkf] at h
            injection h with h2
            rw [h2]
        · have hw := writeFile_file_some hf (ktRewrite gid c)
          rcases h with h | h
          · simp only [ktLoop, hf, if_neg hkf, hw] at h
            rw [ih (i + 1) _ fs' hall' (Or.inl h), rmtree_setEntry hp]
          · simp only [ktLoop, hf, if_neg hkf, hw] at h
            rw [ih (i + 1) _ fs' hall' (Or.inr h), rmtree_setEntry hp]
      | dir =>
        rcases h with h | h
        · simp only [ktLoop, hf] at h
          exact Except.noConfusion h
        · simp only [ktLoop, hf] at h
          injection h with h2
          rw [h2]
    | none =>
      rcases h with h | h
      · simp only [ktLoop, hf] at h
        exact Except.noConfusion h
      · simp only [ktLoop, hf] at h
        injection h with h2
        rw [h2]

theorem ktLoop_ok_content {inj : Inject} {gid : String} :
    ∀ (ps : List Path), ps.Nodup → ∀ (i : Nat) (fs fs' : FS),
      ktLoop inj gid ps i fs = Except.ok fs' →
      ∀ p ∈ ps, ∀ c, findE fs p = some (Entry.file c) →
        findE fs' p = some (Entry.file (ktRewrite gid c)) := by
  intro ps
  induction ps with
  | nil =>
    intro _ i fs fs' _ p hp
    cases hp
  | cons p0 ps ih =>
    intro hnd i fs fs' h p hp c hc
    rw [List.nodup_cons] at hnd
    cases hf : findE fs p0 with
    | some e =>
      cases e with
      | file c0 =>
        by_cases hkf : inj.ktFail = some i
        · simp only [ktLoop, hf, if_pos hkf] at h
          exact Except.noConfusion h
        · have hw := writeFile_file_some hf (ktRewrite gid c0)
          simp only [ktLoop, hf, if_neg hkf, hw] at h
          rcases List.mem_cons.mp hp with h1 | h2
          · have hcc : c = c0 := by
              rw [h1] at hc
              rw [hc] at hf
              injection hf with hf2
              injection hf2
            have hfr := ktLoop_frame ps (i + 1) _ fs' (Or.inl h) p0
              (fun p' hp' hpe => hnd.1 (by rw [← hpe]; exact hp'))
            rw [h1, hfr, findE_setEntry, if_pos rfl, hcc]
          · have hstep : findE (setEntry fs p0 (Entry.file (ktRewrite gid c0))) p
                = some (Entry.file c) := by
              rw [findE_setEntry, if_neg (fun hh => hnd.1 (by rw [← hh]; exact h2))]
              exact hc
            exact ih hnd.2 (i + 1) _ fs' h p h2 c hstep
      | dir =>
        simp only [ktLoop, hf] at h
        exact Except.noConfusion h
    | none =>
      simp only [ktLoop, hf] at h
      exact Except.noConfusion h

theorem ktLoop_ok_of {inj : Inject} {gid : String} (hkf : inj.ktFail = none) :
    ∀ (ps : List Path) (i : Nat) (fs : FS),
      (∀ p ∈ ps, ∃ c, findE fs p = some (Entry.file c)) →
      ∃ fs', ktLoop inj gid ps i fs = Except.ok fs' := by
  intro ps
  induction ps with
  | nil =>
    intro i fs _
    exact ⟨fs, rfl⟩
  | cons p0 ps ih =>
    intro i fs hall
    obtain ⟨c0, hc0⟩ := hall p0 (List.mem_cons_self p0 ps)
    have hkfi : ¬ inj.ktFail = some i := by
      rw [hkf]
      intro hh
      cases hh
    have hw := writeFile_file_some hc0 (ktRewrite gid c0)
    have hall' : ∀ p ∈ ps, ∃ c,
        findE (setEntry fs p0 (Entry.file (ktRewrite gid c0))) p = some (Entry.file c) := by
      intro p hp
      rw [findE_setEntry]
      by_cases hpp : p = p0
      · rw [if_pos hpp]
        exact ⟨ktRewrite gid c0, rfl⟩
      · rw [if_neg hpp]
        exact hall p (List.mem_cons_of_mem p0 hp)
    obtain ⟨fs', h'⟩ := ih (i + 1) _ hall'
    refine ⟨fs', ?_⟩
    simp only [ktLoop, hc0, if_neg hkfi, hw]
    exact h'

/-! Characterizations of the individual steps. -/

theorem gradleStep_err {inj : Inject} {base gid : String} {fs fsE : FS}
    (h : gradleStep inj base gid fs = Except.error fsE) : fsE = fs := by
  cases hf : findE fs (bgPath base gid) with
  | none =>
    simp only [gradleStep, hf] at h
    exact Except.noConfusion h
  | some e =>
    cases e with
    | dir =>
      simp only [gradleStep, hf] at h
      injection h with h2
      rw [h2]
    | file c =>
      simp only [gradleStep, hf] at h
      by_cases hgf : inj.gradleFail = true
      · rw [if_pos hgf] at h
        injection h with h2
        rw [h2]
      · rw [if_neg hgf, writeFile_file_some hf (gradleRewrite gid c)] at h
        exact Except.noConfusion h

theorem gradleStep_ok_cases {inj : Inject} {base gid : String} {fs fs2 : FS}
    (h : gradleStep inj base gid fs = Except.ok fs2) :
    (findE fs (bgPath base gid) = none ∧ fs2 = fs) ∨
    (∃ c, findE fs (bgPath base gid) = some (Entry.file c) ∧
      fs2 = setEntry fs (bgPath base gid) (Entry.file (gradleRewrite gid c))) := by
  cases hf : findE fs (bgPath base gid) with
  | none =>
    simp only [gradleStep, hf] at h
    injection h with h2
    exact Or.inl ⟨rfl, h2.symm⟩
  | some e =>
    cases e with
    | dir =>
      simp only [gradleStep, hf] at h
      exact Except.noConfusion h
    | file c =>
      simp only [gradleStep, hf] at h
      by_cases hgf : inj.gradleFail = true
      · rw [if_pos hgf] at h
        exact Except.noConfusion h
      · rw [if_neg hgf, writeFile_file_some hf (gradleRewrite gid c)] at h
        injection h with h2
        exact Or.inr ⟨c, rfl, h2.symm⟩

theorem gradleStep_frame {inj : Inject} {base gid : String} {fs fsX : FS}
    (h : gradleStep inj base gid fs = Except.ok fsX ∨
      gradleStep inj base gid fs = Except.error fsX)
    {q : Path} (hq : ¬ q = bgPath base gid) : findE fsX q = findE fs q := by
  rcases h with h | h
  · rcases gradleStep_ok_cases h with ⟨_, rfl⟩ | ⟨c, _, rfl⟩
    · rfl
    · rw [findE_setEntry, if_neg hq]
  · rw [gradleStep_err h]

theorem gradleStep_rmtree {inj : Inject} {base gid : String} {fs fsX : FS} {gp : Path}
    (h : gradleStep inj base gid fs = Except.ok fsX ∨
      gradleStep inj base gid fs = Except.error fsX)
    (hbg : isPfxB gp (bgPath base gid) = true) : rmtree fsX gp = rmtree fs gp := by
  rcases h with h | h
  · rcases gradleStep_ok_cases h with ⟨_, rfl⟩ | ⟨c, _, rfl⟩
    · rfl
    · exact rmtree_setEntry hbg fs _
  · rw [gradleStep_err h]

theorem renameStep_err {inj : Inject} {base gid : String} {fs fsE : FS}
    (h : renameStep inj base gid fs = Except.error fsE) : fsE = fs := by
  unfold renameStep at h
  by_cases hs : (findE fs (srcPath base gid)).isSome = true
  · rw [if_pos hs] at h
    by_cases hrf : inj.renameFail = true
    · rw [if_pos hrf] at h
      injection h with h2
      rw [h2]
    · rw [if_neg hrf] at h
      exact Except.noConfusion h
  · rw [if_neg hs] at h
    exact Except.noConfusion h

theorem renameStep_ok_cases {inj : Inject} {base gid : String} {fs fs3 : FS}
    (h : renameStep inj base gid fs = Except.ok fs3) :
    ((findE fs (srcPath base gid)).isSome = true ∧
      fs3 = renameTree fs (srcPath base gid) (dstPath base gid)) ∨
    (findE fs (srcPath base gid) = none ∧ fs3 = fs) := by
  unfold renameStep at h
  by_cases hs : (findE fs (srcPath base gid)).isSome = true
  · rw [if_pos hs] at h
    by_cases hrf : inj.renameFail = true
    · rw [if_pos hrf] at h
      exact Except.noConfusion h
    · rw [if_neg hrf] at h
      injection h with h2
      exact Or.inl ⟨hs, h2.symm⟩
  · rw [if_neg hs] at h
    injection h with h2
    refine Or.inr ⟨?_, h2.symm⟩
    cases hf : findE fs (srcPath base gid) with
    | none => rfl
    | some e =>
      rw [hf] at hs
      simp at hs

theorem renameStep_frame {inj : Inject} {base gid : String} {fs fsX : FS}
    (h : renameStep inj base gid fs = Except.ok fsX ∨
      renameStep inj base gid fs = Except.error fsX)
    {q : Path} (hqa : isPfxB (srcPath base gid) q = false)
    (hqb : isPfxB (dstPath base gid) q = false) : findE fsX q = findE fs q := by
  rcases h with h | h
  · rcases renameStep_ok_cases h with ⟨_, rfl⟩ | ⟨_, rfl⟩
    · exact renameTree_findE_other hqa hqb
    · rfl
  · rw [renameStep_err h]

theorem renameStep_rmtree {inj : Inject} {base gid : String} {fs fsX : FS} {gp : Path}
    (h : renameStep inj base gid fs = Except.ok fsX ∨
      renameStep inj base gid fs = Except.error fsX)
    (ha : isPfxB gp (srcPath base gid) = true)
    (hb : isPfxB gp (dstPath base gid) = true) : rmtree fsX gp = rmtree fs gp := by
  rcases h with h | h
  · rcases renameStep_ok_cases h with ⟨_, rfl⟩ | ⟨_, rfl⟩
    · exact rmtree_renameTree ha hb fs
    · rfl
  · rw [renameStep_err h]

theorem configStep_err {inj : Inject} {base gid gn gc : String} {fs fsE : FS}
    (h : configStep inj base gid gn gc fs = Except.error fsE) : fsE = fs := by
  unfold configStep at h
  by_cases hcf : inj.configFail = true
  · rw [if_pos hcf] at h
    injection h with h2
    rw [h2]
  · rw [if_neg hcf] at h
    cases hw : writeFile fs (cfgPath base gid) (configContent gid gn gc) with
    | some fs2 =>
      rw [hw] at h
      exact Except.noConfusion h
    | none =>
      rw [hw] at h
      injection h with h2
      rw [h2]

theorem configStep_ok {inj : Inject} {base gid gn gc : String} {fs fs' : FS}
    (h : configStep inj base gid gn gc fs = Except.ok fs') :
    fs' = setEntry fs (cfgPath base gid) (Entry.file (configContent gid gn gc)) := by
  unfold configStep at h
  by_cases hcf : inj.configFail = true
  · rw [if_pos hcf] at h
    exact Except.noConfusion h
  · rw [if_neg hcf] at h
    cases hw : writeFile fs (cfgPath base gid) (configContent gid gn gc) with
    | some fs2 =>
      rw [hw] at h
      injection h with h2
      rw [← h2]
      exact writeFile_some_eq hw
    | none =>
      rw [hw] at h
      exact Except.noConfusion h

theorem configStep_frame {inj : Inject} {base gid gn gc : String} {fs fsX : FS}
    (h : configStep inj base gid gn gc fs = Except.ok fsX ∨
      configStep inj base gid gn gc fs = Except.error fsX)
    {q : Path} (hq : ¬ q = cfgPath base gid) : findE fsX q = findE fs q := by
  rcases h with h | h
  · rw [configStep_ok h, findE_setEntry, if_neg hq]
  · rw [configStep_err h]

theorem configStep_rmtree {inj : Inject} {base gid gn gc : String} {fs fsX : FS} {gp : Path}
    (h : configStep inj base gid gn gc fs = Except.ok fsX ∨
      configStep inj base gid gn gc fs = Except.error fsX)
    (hcfg : isPfxB gp (cfgPath base gid) = true) : rmtree fsX gp = rmtree fs gp := by
  rcases h with h | h
  · rw [configStep_ok h, rmtree_setEntry hcfg]
  · rw [configStep_err h]

theorem ktStep_frame {inj : Inject} {base gid : String} {fs fsX : FS}
    (h : ktStep inj base gid fs = Except.ok fsX ∨ ktStep inj base gid fs = Except.error fsX)
    {q : Path} (hq : isPfxB (dstPath base gid) q = false) : findE fsX q = findE fs q := by
  unfold ktStep at h
  refine ktLoop_frame (ktFiles fs (dstPath base gid)) 0 fs fsX h q ?_
  intro p hp hpq
  rcases ktFiles_strict_under hp with ⟨r, rs, rfl⟩
  rw [← hpq, isPfxB_append] at hq
  cases hq

theorem ktStep_rmtree {inj : Inject} {base gid : String} {fs fsX : FS} {gp : Path}
    (h : ktStep inj base gid fs = Except.ok fsX ∨ ktStep inj base gid fs = Except.error fsX)
    (hdst : isPfxB gp (dstPath base gid) = true) : rmtree fsX gp = rmtree fs gp := by
  unfold ktStep at h
  refine ktLoop_rmtree_inv (ktFiles fs (dstPath base gid)) 0 fs fsX ?_ h
  intro p hp
  rcases ktFiles_strict_under hp with ⟨r, rs, rfl⟩
  exact isPfxB_trans hdst (isPfxB_append (dstPath base gid) (r :: rs))

theorem copytree_frame {inj : Inject} {fs fsX : FS} {src dst : Path}
    (h : copytreeM inj fs src dst = Except.ok fsX ∨
      copytreeM inj fs src dst = Except.error fsX)
    {q : Path} (hq : isPfxB dst q = false) : findE fsX q = findE fs q := by
  rcases h with h | h
  · obtain ⟨_, _, rfl⟩ := copytree_ok_inv h
    exact copytree_shape_findE (fun y hy => mem_copyChildren_pfx hy) hq
  · rcases copytree_err_inv h with rfl | ⟨l, hall, rfl⟩
    · rfl
    · exact copytree_shape_findE hall hq

theorem copytree_rmtree {inj : Inject} {fs fsX : FS} {src dst gp : Path}
    (h : copytreeM inj fs src dst = Except.ok fsX ∨
      copytreeM inj fs src dst = Except.error fsX)
    (hgp : isPfxB gp dst = true) : rmtree fsX gp = rmtree fs gp := by
  rcases h with h | h
  · obtain ⟨_, _, rfl⟩ := copytree_ok_inv h
    exact copytree_shape_rmtree (fun y hy => mem_copyChildren_pfx hy) hgp
  · rcases copytree_err_inv h with rfl | ⟨l, hall, rfl⟩
    · rfl
    · exact copytree_shape_rmtree hall hgp

/-! Path facts about the fixed module layout. -/

theorem gp_le_bg (base gid : String) :
    isPfxB (gamePath base gid) (bgPath base gid) = true :=
  isPfxB_append (gamePath base gid) ["build.gradle.kts"]

theorem gp_le_src (base gid : String) :
    isPfxB (gamePath base gid) (srcPath base gid) = true :=
  isPfxB_append (gamePath base gid) srcSubRel

theorem gp_le_dst (base gid : String) :
    isPfxB (gamePath base gid) (dstPath base gid) = true :=
  isPfxB_append (gamePath base gid) (dstSubRel gid)

theorem gp_le_cfg (base gid : String) :
    isPfxB (gamePath base gid) (cfgPath base gid) = true := by
  refine (isPfxB_iff _ _).mpr ⟨dstSubRel gid ++ ["GameConfig.kt"], ?_⟩
  rw [cfgPath, dstPath, List.append_assoc]

theorem src_not_pfx_gp (base gid : String) :
    isPfxB (srcPath base gid) (gamePath base gid) = false :=
  isPfxB_extend_false (gamePath base gid) "src"
    ["main", "kotlin", "com", "roshni", "games", "game", "template"]

theorem dst_not_pfx_gp (base gid : String) :
    isPfxB (dstPath base gid) (gamePath base gid) = false :=
  isPfxB_extend_false (gamePath base gid) "src"
    ["main", "kotlin", "com", "roshni", "games", "game", gid]

theorem gp_ne_bg (base gid : String) : ¬ gamePath base gid = bgPath base gid := by
  intro hh
  exact append_cons_ne (gamePath base gid) "build.gradle.kts" [] hh.symm

theorem gp_ne_cfg (base gid : String) : ¬ gamePath base gid = cfgPath base gid := by
  intro hh
  have hl := congrArg List.length hh
  simp [gamePath, cfgPath, dstPath, dstSubRel] at hl

/-! Walks over the whole try block. -/

theorem tryBlock_ok_inv {inj : Inject} {base gid gn gc : String} {fs fs' : FS}
    (h : tryBlock inj base gid gn gc fs = Except.ok fs') :
    ∃ fs1 fs2 fs3 fs4,
      copytreeM inj fs (templatePath base) (gamePath base gid) = Except.ok fs1 ∧
      gradleStep inj base gid fs1 = Except.ok fs2 ∧
      renameStep inj base gid fs2 = Except.ok fs3 ∧
      ktStep inj base gid fs3 = Except.ok fs4 ∧
      configStep inj base gid gn gc fs4 = Except.ok fs' := by
  cases h1 : copytreeM inj fs (templatePath base) (gamePath base gid) with
  | error f =>
    simp only [tryBlock, h1] at h
    exact Except.noConfusion h
  | ok fs1 =>
    simp only [tryBlock, h1] at h
    cases h2 : gradleStep inj base gid fs1 with
    | error f => simp only [h2] at h; exact Except.noConfusion h
    | ok fs2 =>
      simp only [h2] at h
      cases h3 : renameStep inj base gid fs2 with
      | error f => simp only [h3] at h; exact Except.noConfusion h
      | ok fs3 =>
        simp only [h3] at h
        cases h4 : ktStep inj base gid fs3 with
        | error f => simp only [h4] at h; exact Except.noConfusion h
        | ok fs4 =>
          simp only [h4] at h
          exact ⟨fs1, fs2, fs3, fs4, rfl, h2, h3, h4, h⟩

theorem tryBlock_err_inv {inj : Inject} {base gid gn gc : String} {fs fsE : FS}
    (h : tryBlock inj base gid gn gc fs = Except.error fsE) :
    (copytreeM inj fs (templatePath base) (gamePath base gid) = Except.error fsE) ∨
    (∃ fs1, copytreeM inj fs (templatePath base) (gamePath base gid) = Except.ok fs1 ∧
      gradleStep inj base gid fs1 = Except.error fsE) ∨
    (∃ fs1 fs2, copytreeM inj fs (templatePath base) (gamePath base gid) = Except.ok fs1 ∧
      gradleStep inj base gid fs1 = Except.ok fs2 ∧
      renameStep inj base gid fs2 = Except.error fsE) ∨
    (∃ fs1 fs2 fs3, copytreeM inj fs (templatePath base) (gamePath base gid) = Except.ok fs1 ∧
      gradleStep inj base gid fs1 = Except.ok fs2 ∧
      renameStep inj base gid fs2 = Except.ok fs3 ∧
      ktStep inj base gid fs3 = Except.error fsE) ∨
    (∃ fs1 fs2 fs3 fs4,
      copytreeM inj fs (templatePath base) (gamePath base gid) = Except.ok fs1 ∧
      gradleStep inj base gid fs1 = Except.ok fs2 ∧
      renameStep inj base gid fs2 = Except.ok fs3 ∧
      ktStep inj base gid fs3 = Except.ok fs4 ∧
      configStep inj base gid gn gc fs4 = Except.error fsE) := by
  cases h1 : copytreeM inj fs (templatePath base) (gamePath base gid) with
  | error f =>
    simp only [tryBlock, h1] at h
    injection h with h0
    rw [← h0]
    exact Or.inl rfl
  | ok fs1 =>
    simp only [tryBlock, h1] at h
    cases h2 : gradleStep inj base gid fs1 with
    | error f =>
      simp only [h2] at h
      injection h with h0
      rw [← h0]
      exact Or.inr (Or.inl ⟨fs1, rfl, h2⟩)
    | ok fs2 =>
      simp only [h2] at h
      cases h3 : renameStep inj base gid fs2 with
      | error f =>
        simp only [h3] at h
        injection h with h0
        rw [← h0]
        exact Or.inr (Or.inr (Or.inl ⟨fs1, fs2, rfl, h2, h3⟩))
      | ok fs3 =>
        simp only [h3] at h
        cases h4 : ktStep inj base gid fs3 with
        | error f =>
          simp only [h4] at h
          injection h with h0
          rw [← h0]
          exact Or.inr (Or.inr (Or.inr (Or.inl ⟨fs1, fs2, fs3, rfl, h2, h3, h4⟩)))
        | ok fs4 =>
          simp only [h4] at h
          exact Or.inr (Or.inr (Or.inr (Or.inr ⟨fs1, fs2, fs3, fs4, rfl, h2, h3, h4, h⟩)))

theorem tryBlock_frame {inj : Inject} {base gid gn gc : String} {fs fsX : FS}
    (h : tryBlock inj base gid gn gc fs = Except.ok fsX ∨
      tryBlock inj base gid gn gc fs = Except.error fsX)
    {q : Path} (hq : isPfxB (gamePath base gid) q = false) : findE fsX q = findE fs q := by
  have hsrc : isPfxB (srcPath base gid) q = false := by
    cases hd : isPfxB (srcPath base gid) q
    · rfl
    · rw [isPfxB_trans (gp_le_src base gid) hd] at hq
      cases hq
  have hdst : isPfxB (dstPath base gid) q = false := by
    cases hd : isPfxB (dstPath base gid) q
    · rfl
    · rw [isPfxB_trans (gp_le_dst base gid) hd] at hq
      cases hq
  have hbg : ¬ q = bgPath base gid := by
    intro hh
    rw [hh, gp_le_bg base gid] at hq
    cases hq
  have hcfg : ¬ q = cfgPath base gid := by
    intro hh
    rw [hh, gp_le_cfg base gid] at hq
    cases hq
  rcases h with h | h
  · obtain ⟨fs1, fs2, fs3, fs4, h1, h2, h3, h4, h5⟩ := tryBlock_ok_inv h
    rw [configStep_frame (Or.inl h5) hcfg, ktStep_frame (Or.inl h4) hdst,
      renameStep_frame (Or.inl h3) hsrc hdst, gradleStep_frame (Or.inl h2) hbg,
      copytree_frame (Or.inl h1) hq]
  · rcases tryBlock_err_inv h with h1 | ⟨fs1, h1, h2⟩ | ⟨fs1, fs2, h1, h2, h3⟩ |
      ⟨fs1, fs2, fs3, h1, h2, h3, h4⟩ | ⟨fs1, fs2, fs3, fs4, h1, h2, h3, h4, h5⟩
    · rw [copytree_frame (Or.inr h1) hq]
    · rw [gradleStep_frame (Or.inr h2) hbg, copytree_frame (Or.inl h1) hq]
    · rw [renameStep_frame (Or.inr h3) hsrc hdst, gradleStep_frame (Or.inl h2) hbg,
        copytree_frame (Or.inl h1) hq]
    · rw [ktStep_frame (Or.inr h4) hdst, renameStep_frame (Or.inl h3) hsrc hdst,
        gradleStep_frame (Or.inl h2) hbg, copytree_frame (Or.inl h1) hq]
    · rw [configStep_frame (Or.inr h5) hcfg, ktStep_frame (Or.inl h4) hdst,
        renameStep_frame (Or.inl h3) hsrc hdst, gradleStep_frame (Or.inl h2) hbg,
        copytree_frame (Or.inl h1) hq]

theorem tryBlock_rmtree_inv {inj : Inject} {base gid gn gc : String} {fs fsX : FS}
    (h : tryBlock inj base gid gn gc fs = Except.ok fsX ∨
      tryBlock inj base gid gn gc fs = Except.error fsX) :
    rmtree fsX (gamePath base gid) = rmtree fs (gamePath base gid) := by
  have hgp : isPfxB (gamePath base gid) (gamePath base gid) = true :=
    isPfxB_refl (gamePath base gid)
  rcases h with h | h
  · obtain ⟨fs1, fs2, fs3, fs4, h1, h2, h3, h4, h5⟩ := tryBlock_ok_inv h
    rw [configStep_rmtree (Or.inl h5) (gp_le_cfg base gid),
      ktStep_rmtree (Or.inl h4) (gp_le_dst base gid),
      renameStep_rmtree (Or.inl h3) (gp_le_src base gid) (gp_le_dst base gid),
      gradleStep_rmtree (Or.inl h2) (gp_le_bg base gid),
      copytree_rmtree (Or.inl h1) hgp]
  · rcases tryBlock_err_inv h with h1 | ⟨fs1, h1, h2⟩ | ⟨fs1, fs2, h1, h2, h3⟩ |
      ⟨fs1, fs2, fs3, h1, h2, h3, h4⟩ | ⟨fs1, fs2, fs3, fs4, h1, h2, h3, h4, h5⟩
    · rw [copytree_rmtree (Or.inr h1) hgp]
    · rw [gradleStep_rmtree (Or.inr h2) (gp_le_bg base gid),
        copytree_rmtree (Or.inl h1) hgp]
    · rw [renameStep_rmtree (Or.inr h3) (gp_le_src base gid) (gp_le_dst base gid),
        gradleStep_rmtree (Or.inl h2) (gp_le_bg base gid),
        copytree_rmtree (Or.inl h1) hgp]
    · rw [ktStep_rmtree (Or.inr h4) (gp_le_dst base gid),
        renameStep_rmtree (Or.inl h3) (gp_le_src base gid) (gp_le_dst base gid),
        gradleStep_rmtree (Or.inl h2) (gp_le_bg base gid),
        copytree_rmtree (Or.inl h1) hgp]
    · rw [configStep_rmtree (Or.inr h5) (gp_le_cfg base gid),
        ktStep_rmtree (Or.inl h4) (gp_le_dst base gid),
        renameStep_rmtree (Or.inl h3) (gp_le_src base gid) (gp_le_dst base gid),
        gradleStep_rmtree (Or.inl h2) (gp_le_bg base gid),
        copytree_rmtree (Or.inl h1) hgp]

theorem tryBlock_ok_gp_dir {inj : Inject} {base gid gn gc : String} {fs fs' : FS}
    (hgp0 : findE fs (gamePath base gid) = none)
    (h : tryBlock inj base gid gn gc fs = Except.ok fs') :
    findE fs' (gamePath base gid) = some Entry.dir := by
  obtain ⟨fs1, fs2, fs3, fs4, h1, h2, h3, h4, h5⟩ := tryBlock_ok_inv h
  obtain ⟨_, _, rfl⟩ := copytree_ok_inv h1
  have hg1 : findE (fs ++ (gamePath base gid, Entry.dir) ::
      copyChildren (templatePath base) (gamePath base gid) fs) (gamePath base gid)
      = some Entry.dir := by
    rw [findE_append_none hgp0, findE, if_pos rfl]
  rw [configStep_frame (Or.inl h5) (gp_ne_cfg base gid),
    ktStep_frame (Or.inl h4) (dst_not_pfx_gp base gid),
    renameStep_frame (Or.inl h3) (src_not_pfx_gp base gid) (dst_not_pfx_gp base gid),
    gradleStep_frame (Or.inl h2) (gp_ne_bg base gid), hg1]

theorem copytree_ok_gp {inj : Inject} {fs fs1 : FS} {src dst : Path}
    (hgp0 : findE fs dst = none) (h : copytreeM inj fs src dst = Except.ok fs1) :
    findE fs1 dst = some Entry.dir := by
  obtain ⟨_, _, rfl⟩ := copytree_ok_inv h
  rw [findE_append_none hgp0, findE, if_pos rfl]

theorem tryBlock_err_gp {inj : Inject} {base gid gn gc : String} {fs fsE : FS}
    (hgp0 : findE fs (gamePath base gid) = none)
    (h : tryBlock inj base gid gn gc fs = Except.error fsE) :
    fsE = fs ∨ findE fsE (gamePath base gid) = some Entry.dir := by
  rcases tryBlock_err_inv h with h1 | ⟨fs1, h1, h2⟩ | ⟨fs1, fs2, h1, h2, h3⟩ |
    ⟨fs1, fs2, fs3, h1, h2, h3, h4⟩ | ⟨fs1, fs2, fs3, fs4, h1, h2, h3, h4, h5⟩
  · rcases copytree_err_inv h1 with rfl | ⟨l, _, rfl⟩
    · exact Or.inl rfl
    · refine Or.inr ?_
      rw [findE_append_none hgp0, findE, if_pos rfl]
  · refine Or.inr ?_
    rw [gradleStep_err h2]
    exact copytree_ok_gp hgp0 h1
  · refine Or.inr ?_
    rw [renameStep_err h3, gradleStep_frame (Or.inl h2) (gp_ne_bg base gid)]
    exact copytree_ok_gp hgp0 h1
  · refine Or.inr ?_
    rw [ktStep_frame (Or.inr h4) (dst_not_pfx_gp base gid),
      renameStep_frame (Or.inl h3) (src_not_pfx_gp base gid) (dst_not_pfx_gp base gid),
      gradleStep_frame (Or.inl h2) (gp_ne_bg base gid)]
    exact copytree_ok_gp hgp0 h1
  · refine Or.inr ?_
    rw [configStep_err h5, ktStep_frame (Or.inl h4) (dst_not_pfx_gp base gid),
      renameStep_frame (Or.inl h3) (src_not_pfx_gp base gid) (dst_not_pfx_gp base gid),
      gradleStep_frame (Or.inl h2) (gp_ne_bg base gid)]
    exact copytree_ok_gp hgp0 h1

theorem setup_guard_false {inj : Inject} {fs : FS} {gid gname gcat base : String}
    (hg : (findE fs (gamePath base gid)).isSome = false) :
    setup_game_module inj fs gid gname gcat base =
      (match tryBlock inj base gid gname gcat fs with
        | Except.ok fs' => Outcome.ret true fs'
        | Except.error fsE =>
          if (findE fsE (gamePath base gid)).isSome then
            if inj.rmtreeFail then Outcome.crash fsE
            else Outcome.ret false (rmtree fsE (gamePath base gid))
          else Outcome.ret false fsE) := by
  unfold setup_game_module
  rw [if_neg (by rw [hg]; simp)]

/-! The claims. -/

/-- C5: when the target module path baseDir/<id> already exists, the
script prints an error and returns False before the try block: the
result is a failure and the filesystem value is returned untouched, so
the existing module is left exactly as it was. -/
theorem claim5_already_exists (inj : Inject) (fs : FS) (gid gname gcat base : String)
    (h : (findE fs (gamePath base gid)).isSome = true) :
    setup_game_module inj fs gid gname gcat base = Outcome.ret false fs := by
  unfold setup_game_module
  rw [if_pos h]

/-- C5 witness: a second run with the same id on the state produced by
a successful first run fails and changes nothing. -/
theorem claim5_witness :
    (findE (outFS (setup_game_module noInject fsTmpl "snake-game" "Snake" "arcade" "game"))
      (gamePath "game" "snake-game")).isSome = true ∧
    setup_game_module noInject
      (outFS (setup_game_module noInject fsTmpl "snake-game" "Snake" "arcade" "game"))
      "snake-game" "Snake" "arcade" "game" =
      Outcome.ret false
        (outFS (setup_game_module noInject fsTmpl "snake-game" "Snake" "arcade" "game")) :=
  ⟨by decide, claim5_already_exists noInject _ "snake-game" "Snake" "arcade" "game" (by decide)⟩

/-- C6: when the template root game/template is missing or is not a
directory, the recursive copy fails before creating anything, the
handler finds no target to delete, and the call returns False with the
filesystem unchanged; in particular no target directory comes into
existence. -/
theorem claim6_template_missing (inj : Inject) (fs : FS) (gid gname gcat base : String)
    (h : ¬ findE fs (templatePath base) = some Entry.dir) :
    setup_game_module inj fs gid gname gcat base = Outcome.ret false fs ∧
    (findE fs (gamePath base gid) = none →
      findE (outFS (setup_game_module inj fs gid gname gcat base)) (gamePath base gid)
        = none) := by
  have hcopy : copytreeM inj fs (templatePath base) (gamePath base gid) = Except.error fs := by
    unfold copytreeM
    rw [if_neg h]
  have htb : tryBlock inj base gid gname gcat fs = Except.error fs := by
    simp only [tryBlock, hcopy]
  have hmain : setup_game_module inj fs gid gname gcat base = Outcome.ret false fs := by
    by_cases hg : (findE fs (gamePath base gid)).isSome = true
    · unfold setup_game_module
      rw [if_pos hg]
    · rw [setup_guard_false (by rw [Bool.eq_false_iff]; exact hg), htb]
      show (if (findE fs (gamePath base gid)).isSome = true then _ else _) = _
      rw [if_neg hg]
  refine ⟨hmain, ?_⟩
  intro hn
  rw [hmain]
  exact hn

/-- C6 witness: with no template directory at all, a run fails and
leaves the filesystem unchanged. -/
theorem claim6_witness :
    ¬ findE [(["game"], Entry.dir)] (templatePath "game") = some Entry.dir ∧
    setup_game_module noInject [(["game"], Entry.dir)] "g1" "G" "puzzle" "game" =
      Outcome.ret false [(["game"], Entry.dir)] :=
  ⟨by decide,
    (claim6_template_missing noInject [(["game"], Entry.dir)] "g1" "G" "puzzle" "game"
      (by decide)).1⟩

/-- C8 amended: every failure injected along steps 1 to 5 is caught by
the handler and converted into a False return, so no run with a
reliable rollback deletion ever crashes; the original claim fails
because an exception raised by shutil.rmtree inside the except block
itself is not caught (see the counterexample). -/
theorem claim8_amended_no_crash (inj : Inject) (fs : FS) (gid gname gcat base : String)
    (h : inj.rmtreeFail = false) :
    isCrash (setup_game_module inj fs gid gname gcat base) = false := by
  by_cases hg : (findE fs (gamePath base gid)).isSome = true
  · unfold setup_game_module
    rw [if_pos hg]
    rfl
  · rw [setup_guard_false (by rw [Bool.eq_false_iff]; exact hg)]
    cases htb : tryBlock inj base gid gname gcat fs with
    | ok fsT => rfl
    | error fsE =>
      show isCrash (if (findE fsE (gamePath base gid)).isSome = true then _ else _) = false
      by_cases he : (findE fsE (gamePath base gid)).isSome = true
      · rw [if_pos he, if_neg (by rw [h]; simp)]
        rfl
      · rw [if_neg he]
        rfl

/-- C8 witness: with the rollback deletion reliable, an injected copy
failure still produces a returned failure, not a crash. -/
theorem claim8_witness :
    (Inject.mk (some 0) false false none false false).rmtreeFail = false ∧
    isCrash (setup_game_module (Inject.mk (some 0) false false none false false)
      fsTmpl "g1" "G" "puzzle" "game") = false :=
  ⟨rfl, claim8_amended_no_crash _ fsTmpl "g1" "G" "puzzle" "game" rfl⟩

/-- C8 counterexample: an injected failure of the recursive copy
leaves a half-copied target, and when the rollback deletion inside the
except block also fails, the exception propagates: the call crashes
instead of returning a failure result, refuting the claim that no
failure escapes as a crash, including failures during the rollback
deletion itself. -/
theorem claim8_counterexample :
    isCrash (setup_game_module (Inject.mk (some 0) false false none false true)
      fsTmpl "g1" "G" "puzzle" "game") = true := by
  decide

/-- C7: non-interference of instantiation.  First part: every run,
successful, failed, or crashed, leaves every path outside the target
root baseDir/<id> bound exactly as before, so all filesystem writes
stay inside the target root.  Second part: every path at or below the
template root is unchanged, so the template tree is byte-identical
before and after the call (the id "template" itself is rejected by the
pre-existence guard before any mutation). -/
theorem claim7_noninterference (inj : Inject) (fs : FS) (gid gname gcat base : String) :
    (∀ q : Path, isPfxB (gamePath base gid) q = false →
      findE (outFS (setup_game_module inj fs gid gname gcat base)) q = findE fs q) ∧
    (∀ q : Path, isPfxB (templatePath base) q = true →
      findE (outFS (setup_game_module inj fs gid gname gcat base)) q = findE fs q) := by
  have hmain : ∀ q : Path, isPfxB (gamePath base gid) q = false →
      findE (outFS (setup_game_module inj fs gid gname gcat base)) q = findE fs q := by
    intro q hq
    by_cases hg : (findE fs (gamePath base gid)).isSome = true
    · unfold setup_game_module
      rw [if_pos hg]
      rfl
    · rw [setup_guard_false (by rw [Bool.eq_false_iff]; exact hg)]
      cases htb : tryBlock inj base gid gname gcat fs with
      | ok fsT => exact tryBlock_frame (Or.inl htb) hq
      | error fsE =>
        show findE (outFS (if (findE fsE (gamePath base gid)).isSome = true then _ else _)) q
          = findE fs q
        by_cases he : (findE fsE (gamePath base gid)).isSome = true
        · rw [if_pos he]
          by_cases hrm : inj.rmtreeFail = true
          · rw [if_pos hrm]
            exact tryBlock_frame (Or.inr htb) hq
          · rw [if_neg hrm]
            show findE (rmtree fsE (gamePath base gid)) q = findE fs q
            rw [findE_rmtree, if_neg (by rw [hq]; simp)]
            exact tryBlock_frame (Or.inr htb) hq
        · rw [if_neg he]
          exact tryBlock_frame (Or.inr htb) hq
  refine ⟨hmain, ?_⟩
  intro q hq
  by_cases hgid : gid = "template"
  · subst hgid
    by_cases hg : (findE fs (gamePath base "template")).isSome = true
    · unfold setup_game_module
      rw [if_pos hg]
      rfl
    · have hcopy : copytreeM inj fs (templatePath base) (gamePath base "template")
          = Except.error fs := by
        unfold copytreeM
        rw [if_neg]
        intro hd
        have hd2 : findE fs (gamePath base "template") = some Entry.dir := hd
        rw [hd2] at hg
        exact hg rfl
      have htb : tryBlock inj base "template" gname gcat fs = Except.error fs := by
        simp only [tryBlock, hcopy]
      rw [setup_guard_false (by rw [Bool.eq_false_iff]; exact hg), htb]
      show findE (outFS (if (findE fs (gamePath base "template")).isSome = true
        then _ else _)) q = findE fs q
      rw [if_neg hg]
      rfl
  · refine hmain q ?_
    cases hp : isPfxB (gamePath base gid) q
    · rfl
    · exfalso
      rcases (isPfxB_iff (gamePath base gid) q).mp hp with ⟨r, hr⟩
      rcases (isPfxB_iff (templatePath base) q).mp hq with ⟨s, hs⟩
      rw [hr] at hs
      have hlen : (gamePath base gid).length = (templatePath base).length := rfl
      have := (List.append_inj hs.symm hlen).1
      rw [gamePath, templatePath] at this
      injection this with _ h2
      injection h2 with h3
      exact hgid h3.symm

/-- C7 witness: in a successful concrete run the template's own source
file and the template root are unchanged, exercised through both parts
of the theorem. -/
theorem claim7_witness :
    findE (outFS (setup_game_module noInject fsTmpl "snake-game" "Snake" "arcade" "game"))
      (templatePath "game" ++ srcSubRel ++ ["TemplateScreen.kt"])
      = findE fsTmpl (templatePath "game" ++ srcSubRel ++ ["TemplateScreen.kt"]) ∧
    findE (outFS (setup_game_module noInject fsTmpl "snake-game" "Snake" "arcade" "game"))
      (templatePath "game") = findE fsTmpl (templatePath "game") :=
  ⟨(claim7_noninterference noInject fsTmpl "snake-game" "Snake" "arcade" "game").2
      (templatePath "game" ++ srcSubRel ++ ["TemplateScreen.kt"]) (by decide),
    (claim7_noninterference noInject fsTmpl "snake-game" "Snake" "arcade" "game").1
      (templatePath "game") (by decide)⟩

/-- C1: atomicity of failure.  For a state with nothing at or below
the target root, whenever the call returns (rather than crashing in
the uncaught rollback failure case), a False result implies the
filesystem is exactly the initial one, with the target root absent,
and a True result implies the target root exists as a directory with
the instantiation fully applied: the observable post-return states are
exactly absent-target and fully-instantiated-target. -/
theorem claim1_failure_atomicity (inj : Inject) (fs : FS) (gid gname gcat base : String)
    (hclean : cleanUnder fs (gamePath base gid) = true) (b : Bool) (fs' : FS)
    (h : setup_game_module inj fs gid gname gcat base = Outcome.ret b fs') :
    (b = false → fs' = fs ∧ findE fs' (gamePath base gid) = none) ∧
    (b = true → findE fs' (gamePath base gid) = some Entry.dir) := by
  have hgp0 : findE fs (gamePath base gid) = none :=
    cleanUnder_findE hclean (isPfxB_refl (gamePath base gid))
  have hg : (findE fs (gamePath base gid)).isSome = false := by
    rw [hgp0]
    rfl
  rw [setup_guard_false hg] at h
  cases htb : tryBlock inj base gid gname gcat fs with
  | ok fsT =>
    rw [htb] at h
    injection h with hb hf
    constructor
    · intro hb0
      rw [← hb] at hb0
      cases hb0
    · intro _
      rw [← hf]
      exact tryBlock_ok_gp_dir hgp0 htb
  | error fsE =>
    rw [htb] at h
    have h2 : (if (findE fsE (gamePath base gid)).isSome = true then
        (if inj.rmtreeFail = true then Outcome.crash fsE
          else Outcome.ret false (rmtree fsE (gamePath base gid)))
        else Outcome.ret false fsE) = Outcome.ret b fs' := h
    by_cases he : (findE fsE (gamePath base gid)).isSome = true
    · rw [if_pos he] at h2
      by_cases hrm : inj.rmtreeFail = true
      · rw [if_pos hrm] at h2
        exact Outcome.noConfusion h2
      · rw [if_neg hrm] at h2
        injection h2 with hb hf
        have hfs : fs' = fs := by
          rw [← hf, tryBlock_rmtree_inv (Or.inr htb), rmtree_cleanUnder hclean]
        constructor
        · intro _
          refine ⟨hfs, ?_⟩
          rw [hfs]
          exact hgp0
        · intro hb1
          rw [← hb] at hb1
          cases hb1
    · rw [if_neg he] at h2
      injection h2 with hb hf
      rcases tryBlock_err_gp hgp0 htb with hfe | hfe
      · constructor
        · intro _
          refine ⟨by rw [← hf, hfe], ?_⟩
          rw [← hf, hfe]
          exact hgp0
        · intro hb1
          rw [← hb] at hb1
          cases hb1
      · rw [hfe] at he
        simp at he

theorem toNat_ofNat_small (n : Nat) (h : n < 55296) : (Char.ofNat n).toNat = n := by
  unfold Char.ofNat
  rw [dif_pos (Or.inl h)]
  unfold Char.ofNatAux Char.toNat
  simp [UInt32.toNat, BitVec.toNat_ofNatLt]

theorem upperA_toNat {c : Char} (h1 : 97 ≤ c.toNat) (h2 : c.toNat ≤ 122) :
    (upperA c).toNat = c.toNat - 32 := by
  unfold upperA
  rw [if_pos ⟨h1, h2⟩]
  exact toNat_ofNat_small _ (by omega)

theorem lowerA_id {c : Char} (h1 : 97 ≤ c.toNat) : lowerA c = c := by
  unfold lowerA
  rw [if_neg]
  rintro ⟨_, h2⟩
  omega

theorem c2_core : ∀ (l : List Char), (∀ c ∈ l, validChar c = true) → ∀ prev : Bool,
    ((pyTitleAux prev (l.map dashToU)).filter fun c => decide (c.toNat ≠ 95))
      = ((capRuns prev l).filter fun c => decide (c.toNat ≠ 45 ∧ c.toNat ≠ 95)) := by
  intro l
  induction l with
  | nil =>
    intro _ prev
    rfl
  | cons c cs ih =>
    intro hv prev
    have hvc := hv c (List.mem_cons_self c cs)
    have hv' : ∀ c' ∈ cs, validChar c' = true := fun c' h' => hv c' (List.mem_cons_of_mem c h')
    have htl := ih hv'
    have hcase : (97 ≤ c.toNat ∧ c.toNat ≤ 122) ∨ (48 ≤ c.toNat ∧ c.toNat ≤ 57) ∨
        c.toNat = 45 ∨ c.toNat = 95 := by
      simpa [validChar, Bool.or_eq_true, Bool.and_eq_true, decide_eq_true_eq,
        or_assoc] using hvc
    rcases hcase with ⟨h1, h2⟩ | ⟨h1, h2⟩ | h1 | h1
    · have hdash : dashToU c = c := by
        unfold dashToU
        rw [if_neg (by omega)]
      have hlet : asciiLetter c = true := by
        simp only [asciiLetter, Bool.or_eq_true, Bool.and_eq_true, decide_eq_true_eq]
        omega
      have hu := upperA_toNat h1 h2
      cases prev with
      | true =>
        simp only [List.map_cons, hdash, pyTitleAux, capRuns, hlet, eq_self_iff_true,
          if_true, cond_true, List.filter_cons]
        rw [lowerA_id h1,
          if_pos (show decide (c.toNat ≠ 95) = true by
            simp only [decide_eq_true_eq]; omega),
          if_pos (show decide (c.toNat ≠ 45 ∧ c.toNat ≠ 95) = true by
            simp only [decide_eq_true_eq]; exact ⟨by omega, by omega⟩),
          htl true]
      | false =>
        simp only [List.map_cons, hdash, pyTitleAux, capRuns, hlet, eq_self_iff_true,
          if_true, cond_false, List.filter_cons]
        rw [if_pos (show decide ((upperA c).toNat ≠ 95) = true by
            simp only [decide_eq_true_eq, hu]; omega),
          if_pos (show decide ((upperA c).toNat ≠ 45 ∧ (upperA c).toNat ≠ 95) = true by
            simp only [decide_eq_true_eq, hu]; exact ⟨by omega, by omega⟩),
          htl true]
    · have hdash : dashToU c = c := by
        unfold dashToU
        rw [if_neg (by omega)]
      have hlet : asciiLetter c = false := by
        simp only [asciiLetter, Bool.or_eq_false_iff, Bool.and_eq_false_iff,
          decide_eq_false_iff_not]
        omega
      simp only [List.map_cons, hdash, pyTitleAux, capRuns, hlet, Bool.false_eq_true,
        if_false, List.filter_cons]
      rw [if_pos (show decide (c.toNat ≠ 95) = true by
          simp only [decide_eq_true_eq]; omega),
        if_pos (show decide (c.toNat ≠ 45 ∧ c.toNat ≠ 95) = true by
          simp only [decide_eq_true_eq]; exact ⟨by omega, by omega⟩),
        htl false]
    · have hdash : dashToU c = '_' := by
        unfold dashToU
        rw [if_pos h1]
      have hlet : asciiLetter c = false := by
        simp only [asciiLetter, Bool.or_eq_false_iff, Bool.and_eq_false_iff,
          decide_eq_false_iff_not]
        omega
      have hletu : asciiLetter '_' = false := by decide
      simp only [List.map_cons, hdash, pyTitleAux, capRuns, hlet, hletu,
        Bool.false_eq_true, if_false, List.filter_cons]
      rw [if_neg (by decide),
        if_neg (show ¬ decide (c.toNat ≠ 45 ∧ c.toNat ≠ 95) = true by
          simp only [decide_eq_true_eq, not_and]
          intro h45
          exact absurd h1 h45),
        htl false]
    · have hdash : dashToU c = c := by
        unfold dashToU
        rw [if_neg (by omega)]
      have hlet : asciiLetter c = false := by
        simp only [asciiLetter, Bool.or_eq_false_iff, Bool.and_eq_false_iff,
          decide_eq_false_iff_not]
        omega
      simp only [List.map_cons, hdash, pyTitleAux, capRuns, hlet, Bool.false_eq_true,
        if_false, List.filter_cons]
      rw [if_neg (show ¬ decide (c.toNat ≠ 95) = true by
          simp only [decide_eq_true_eq, ne_eq, not_not]
          exact h1),
        if_neg (show ¬ decide (c.toNat ≠ 45 ∧ c.toNat ≠ 95) = true by
          simp only [decide_eq_true_eq, not_and, ne_eq, not_not]
          intro _
          exact h1),
        htl false]

/-- C2 counterexample: the id abc1def is composed of lowercase
alphanumerics, yet the script derives Abc1Def (Python str.title also
capitalizes a letter that follows a digit) while the spec's
split-on-separators rule yields Abc1def, so the derived fragment does
not equal the split-capitalize-concatenate result. -/
theorem claim2_counterexample :
    validId "abc1def" = true ∧
    derivedFrag "abc1def" ≠ specSplitCapFrag "abc1def" ∧
    derivedFrag "abc1def" = "Abc1Def".data ∧
    specSplitCapFrag "abc1def" = "Abc1def".data :=
  ⟨by decide, by decide, by decide, by decide⟩

/-- C2 amended: for every id of lowercase alphanumerics and
hyphen/underscore separators, the derived type-name fragment equals
the amended rule: capitalize exactly the letters that start a maximal
letter run (at the start of the id or right after any non-letter
character, separator or digit alike), then delete the separators; on
separator boundaries this agrees with the spec's rule, and it also
capitalizes after digits, which the original rule does not. -/
theorem claim2_amended_rule (gid : String) (h : validId gid = true) :
    derivedFrag gid = runCapFrag gid := by
  unfold derivedFrag runCapFrag
  exact c2_core gid.data (fun c hc => List.all_eq_true.mp h c hc) false

/-- C2 witness: the amended rule applied to arcade-ball_99, which the
script maps to ArcadeBall99. -/
theorem claim2_witness :
    validId "arcade-ball_99" = true ∧
    derivedFrag "arcade-ball_99" = runCapFrag "arcade-ball_99" ∧
    derivedFrag "arcade-ball_99" = "ArcadeBall99".data :=
  ⟨by decide, claim2_amended_rule "arcade-ball_99" (by decide), by decide⟩

theorem containsSub_here {s pat : List Char} (h : isPfxB pat s = true) :
    containsSub s pat = true := by
  cases s with
  | nil =>
    rw [containsSub]
    exact h
  | cons c cs =>
    rw [containsSub, Bool.or_eq_true]
    exact Or.inl h

theorem containsSub_append_left (x : List Char) {s pat : List Char}
    (h : containsSub s pat = true) : containsSub (x ++ s) pat = true := by
  induction x with
  | nil => simpa using h
  | cons c cs ih =>
    rw [List.cons_append, containsSub, Bool.or_eq_true]
    exact Or.inr ih

theorem isPfxB_pair {α : Type} [DecidableEq α] (x y z : List α) :
    isPfxB (x ++ y) (x ++ (y ++ z)) = true :=
  (isPfxB_iff (x ++ y) (x ++ (y ++ z))).mpr ⟨z, by rw [List.append_assoc]⟩

theorem setup_ret_true_tryBlock {inj : Inject} {fs fs' : FS} {gid gname gcat base : String}
    (h : setup_game_module inj fs gid gname gcat base = Outcome.ret true fs') :
    tryBlock inj base gid gname gcat fs = Except.ok fs' := by
  by_cases hg : (findE fs (gamePath base gid)).isSome = true
  · unfold setup_game_module at h
    rw [if_pos hg] at h
    injection h with hb _
    cases hb
  · rw [setup_guard_false (by rw [Bool.eq_false_iff]; exact hg)] at h
    revert h
    cases htb2 : tryBlock inj base gid gname gcat fs with
    | ok fsT =>
      intro h
      injection h with _ hf
      rw [hf]
    | error fsE =>
      intro h
      exfalso
      by_cases he : (findE fsE (gamePath base gid)).isSome = true
      · rw [show (match Except.error fsE with
            | Except.ok fs' => Outcome.ret true fs'
            | Except.error fsE =>
              if (findE fsE (gamePath base gid)).isSome then
                if inj.rmtreeFail then Outcome.crash fsE
                else Outcome.ret false (rmtree fsE (gamePath base gid))
              else Outcome.ret false fsE)
            = (if (findE fsE (gamePath base gid)).isSome = true then
                (if inj.rmtreeFail = true then Outcome.crash fsE
                  else Outcome.ret false (rmtree fsE (gamePath base gid)))
                else Outcome.ret false fsE) from rfl, if_pos he] at h
        by_cases hrm : inj.rmtreeFail = true
        · rw [if_pos hrm] at h
          exact Outcome.noConfusion h
        · rw [if_neg hrm] at h
          injection h with hb _
          cases hb
      · rw [show (match Except.error fsE with
            | Except.ok fs' => Outcome.ret true fs'
            | Except.error fsE =>
              if (findE fsE (gamePath base gid)).isSome then
                if inj.rmtreeFail then Outcome.crash fsE
                else Outcome.ret false (rmtree fsE (gamePath base gid))
              else Outcome.ret false fsE)
            = (if (findE fsE (gamePath base gid)).isSome = true then
                (if inj.rmtreeFail = true then Outcome.crash fsE
                  else Outcome.ret false (rmtree fsE (gamePath base gid)))
                else Outcome.ret false fsE) from rfl, if_neg he] at h
        injection h with hb _
        cases hb

/-- C9: after every successful instantiation the file GameConfig.kt
exists inside the renamed namespace directory with exactly the
generated contents (written last, so never the template's copy), and
those contents contain the literal id, display name and category, the
fixed VERSION "1.0.0", MIN_SDK 24 and TARGET_SDK 34 constants, and
open with a package declaration ending in the id. -/
theorem claim9_config_emission (inj : Inject) (fs : FS) (gid gname gcat base : String)
    (fs' : FS) (h : setup_game_module inj fs gid gname gcat base = Outcome.ret true fs') :
    findE fs' (cfgPath base gid) = some (Entry.file (configContent gid gname gcat)) ∧
    containsSub (configContent gid gname gcat) gid.data = true ∧
    containsSub (configContent gid gname gcat) gname.data = true ∧
    containsSub (configContent gid gname gcat) gcat.data = true ∧
    containsSub (configContent gid gname gcat) "const val VERSION = \"1.0.0\"".data = true ∧
    containsSub (configContent gid gname gcat) "const val MIN_SDK = 24".data = true ∧
    containsSub (configContent gid gname gcat) "const val TARGET_SDK = 34".data = true ∧
    isPfxB ("package com.roshni.games.game." ++ gid).data (configContent gid gname gcat)
      = true := by
  have htb := setup_ret_true_tryBlock h
  obtain ⟨fs1, fs2, fs3, fs4, h1, h2, h3, h4, h5⟩ := tryBlock_ok_inv htb
  refine ⟨?_, ?_, ?_, ?_, ?_, ?_, ?_, ?_⟩
  · rw [configStep_ok h5, findE_setEntry, if_pos rfl]
  · simp only [configContent, String.data_append, List.append_assoc]
    exact containsSub_append_left "package com.roshni.games.game.".data
      (containsSub_here (isPfxB_append gid.data _))
  · simp only [configContent, String.data_append, List.append_assoc]
    exact containsSub_append_left "package com.roshni.games.game.".data
      (containsSub_append_left gid.data
        (containsSub_append_left "\n\n// Game configuration for ".data
          (containsSub_here (isPfxB_append gname.data _))))
  · simp only [configContent, String.data_append, List.append_assoc]
    exact containsSub_append_left "package com.roshni.games.game.".data
      (containsSub_append_left gid.data
        (containsSub_append_left "\n\n// Game configuration for ".data
          (containsSub_append_left gname.data
            (containsSub_append_left
              "\nobject GameConfig \x7b\n    const val GAME_ID = \"".data
              (containsSub_append_left gid.data
                (containsSub_append_left "\"\n    const val GAME_NAME = \"".data
                  (containsSub_append_left gname.data
                    (containsSub_append_left "\"\n    const val CATEGORY = \"".data
                      (containsSub_here (isPfxB_append gcat.data _))))))))))
  · simp only [configContent, String.data_append, List.append_assoc]
    exact containsSub_append_left "package com.roshni.games.game.".data
      (containsSub_append_left gid.data
        (containsSub_append_left "\n\n// Game configuration for ".data
          (containsSub_append_left gname.data
            (containsSub_append_left
              "\nobject GameConfig \x7b\n    const val GAME_ID = \"".data
              (containsSub_append_left gid.data
                (containsSub_append_left "\"\n    const val GAME_NAME = \"".data
                  (containsSub_append_left gname.data
                    (containsSub_append_left "\"\n    const val CATEGORY = \"".data
                      (containsSub_append_left gcat.data (by decide))))))))))
  · simp only [configContent, String.data_append, List.append_assoc]
    exact containsSub_append_left "package com.roshni.games.game.".data
      (containsSub_append_left gid.data
        (containsSub_append_left "\n\n// Game configuration for ".data
          (containsSub_append_left gname.data
            (containsSub_append_left
              "\nobject GameConfig \x7b\n    const val GAME_ID = \"".data
              (containsSub_append_left gid.data
                (containsSub_append_left "\"\n    const val GAME_NAME = \"".data
                  (containsSub_append_left gname.data
                    (containsSub_append_left "\"\n    const val CATEGORY = \"".data
                      (containsSub_append_left gcat.data (by decide))))))))))
  · simp only [configContent, String.data_append, List.append_assoc]
    exact containsSub_append_left "package com.roshni.games.game.".data
      (containsSub_append_left gid.data
        (containsSub_append_left "\n\n// Game configuration for ".data
          (containsSub_append_left gname.data
            (containsSub_append_left
              "\nobject GameConfig \x7b\n    const val GAME_ID = \"".data
              (containsSub_append_left gid.data
                (containsSub_append_left "\"\n    const val GAME_NAME = \"".data
                  (containsSub_append_left gname.data
                    (containsSub_append_left "\"\n    const val CATEGORY = \"".data
                      (containsSub_append_left gcat.data (by decide))))))))))
  · simp only [configContent, String.data_append, List.append_assoc]
    exact isPfxB_pair "package com.roshni.games.game.".data gid.data _

/-- C9 witness: the concrete successful run carries the generated
GameConfig.kt with all required pieces. -/
theorem claim9_witness :
    findE (outFS (setup_game_module noInject fsTmpl "snake-game" "Snake Game" "arcade" "game"))
      (cfgPath "game" "snake-game")
      = some (Entry.file (configContent "snake-game" "Snake Game" "arcade")) ∧
    containsSub (configContent "snake-game" "Snake Game" "arcade") "snake-game".data = true := by
  have h := claim9_config_emission noInject fsTmpl "snake-game" "Snake Game" "arcade" "game"
    (outFS (setup_game_module noInject fsTmpl "snake-game" "Snake Game" "arcade" "game"))
    (by decide)
  exact ⟨h.1, h.2.1⟩

/-- C1 witness: an injected rename failure on a concrete template run
returns False with the initial filesystem restored and no target, and
the uninjected run returns True with the target directory present. -/
theorem claim1_witness :
    cleanUnder fsTmpl (gamePath "game" "snake-game") = true ∧
    (outFS (setup_game_module (Inject.mk none false true none false false) fsTmpl
      "snake-game" "Snake" "arcade" "game") = fsTmpl ∧
      findE (outFS (setup_game_module (Inject.mk none false true none false false) fsTmpl
        "snake-game" "Snake" "arcade" "game")) (gamePath "game" "snake-game") = none) ∧
    findE (outFS (setup_game_module noInject fsTmpl "snake-game" "Snake" "arcade" "game"))
      (gamePath "game" "snake-game") = some Entry.dir := by
  refine ⟨by decide, ?_, ?_⟩
  · exact (claim1_failure_atomicity (Inject.mk none false true none false false) fsTmpl
      "snake-game" "Snake" "arcade" "game" (by decide) false
      (outFS (setup_game_module (Inject.mk none false true none false false) fsTmpl
        "snake-game" "Snake" "arcade" "game")) (by decide)).1 rfl
  · exact (claim1_failure_atomicity noInject fsTmpl
      "snake-game" "Snake" "arcade" "game" (by decide) true
      (outFS (setup_game_module noInject fsTmpl "snake-game" "Snake" "arcade" "game"))
      (by decide)).2 rfl

theorem ne_of_len {α : Type} {p q : List α} (h : ¬ p.length = q.length) : ¬ p = q :=
  fun hh => h (congrArg List.length hh)

theorem bg_ne_cfg (base gid : String) : ¬ bgPath base gid = cfgPath base gid := by
  refine ne_of_len ?_
  simp [bgPath, gamePath, cfgPath, dstPath, dstSubRel]

theorem dst_not_pfx_bg (base gid : String) :
    isPfxB (dstPath base gid) (bgPath base gid) = false := by
  refine isPfxB_len_false ?_
  simp [bgPath, gamePath, dstPath, dstSubRel]

theorem src_not_pfx_bg (base gid : String) :
    isPfxB (srcPath base gid) (bgPath base gid) = false := by
  refine isPfxB_len_false ?_
  simp [bgPath, gamePath, srcPath, srcSubRel]

/-- C10: the placeholder substitutions are raw literal substring
replacements with no token-boundary guard.  After every successful
instantiation from a state with a clean target, the build descriptor's
final contents are exactly the composition of the two Python
str.replace calls on the template's contents, qualified form first:
gradleRewrite.  Two closed equations exercise the boundary-free
behavior: GAME_ID is replaced inside the longer identifier BIGGAME_IDX
after the qualified form was handled, and Template is replaced inside
a longer identifier, a string literal and a comment of a Kotlin
source. -/
theorem claim10_raw_substitution (inj : Inject) (fs : FS) (gid gname gcat base : String)
    (fs' : FS) (c0 : Content)
    (hclean : cleanUnder fs (gamePath base gid) = true)
    (hbg : findE fs (templatePath base ++ ["build.gradle.kts"]) = some (Entry.file c0))
    (h : setup_game_module inj fs gid gname gcat base = Outcome.ret true fs') :
    findE fs' (bgPath base gid) = some (Entry.file (gradleRewrite gid c0)) ∧
    gradleRewrite "snake" "val BIGGAME_IDX = GAME_ID\ncom.roshni.games.game.GAME_ID".data
      = "val BIGsnakeX = snake\ncom.roshni.games.game.snake".data ∧
    ktRewrite "word-match"
      "// Template note\nimport a.TemplateHelper\nclass TemplateViewX : ITemplate \x7b val s = \"Template!\" \x7d".data
      = "// WordMatch note\nimport a.WordMatchHelper\nclass WordMatchViewX : IWordMatch \x7b val s = \"WordMatch!\" \x7d".data := by
  refine ⟨?_, by decide, by decide⟩
  have htb := setup_ret_true_tryBlock h
  obtain ⟨fs1, fs2, fs3, fs4, h1, h2, h3, h4, h5⟩ := tryBlock_ok_inv htb
  have hbg1 : findE fs1 (bgPath base gid) = some (Entry.file c0) :=
    (copytree_ok_findE hclean h1 ["build.gradle.kts"]).trans hbg
  rcases gradleStep_ok_cases h2 with ⟨hnone, _⟩ | ⟨c, hc, rfl⟩
  · rw [hbg1] at hnone
    cases hnone
  · have hcc : c = c0 := by
      rw [hbg1] at hc
      injection hc with h0
      injection h0 with h00
      exact h00.symm
    have hbg2 : findE (setEntry fs1 (bgPath base gid)
        (Entry.file (gradleRewrite gid c))) (bgPath base gid)
        = some (Entry.file (gradleRewrite gid c0)) := by
      rw [findE_setEntry, if_pos rfl, hcc]
    rw [configStep_frame (Or.inl h5) (bg_ne_cfg base gid),
      ktStep_frame (Or.inl h4) (dst_not_pfx_bg base gid),
      renameStep_frame (Or.inl h3) (src_not_pfx_bg base gid) (dst_not_pfx_bg base gid),
      hbg2]

/-- C10 witness: the concrete successful run rewrites the template's
build.gradle.kts into exactly the raw-replacement image, including the
GAME_IDMARKER identifier whose embedded GAME_ID is replaced. -/
theorem claim10_witness :
    cleanUnder fsTmpl (gamePath "game" "snake-game") = true ∧
    findE (outFS (setup_game_module noInject fsTmpl "snake-game" "Snake" "arcade" "game"))
      (bgPath "game" "snake-game")
      = some (Entry.file (gradleRewrite "snake-game" bgTmplContent)) ∧
    containsSub (gradleRewrite "snake-game" bgTmplContent) "val snake-gameMARKER".data
      = true := by
  refine ⟨by decide, ?_, by decide⟩
  exact (claim10_raw_substitution noInject fsTmpl "snake-game" "Snake" "arcade" "game"
    (outFS (setup_game_module noInject fsTmpl "snake-game" "Snake" "arcade" "game"))
    bgTmplContent (by decide) (by decide) (by decide)).1

theorem app_ne_of_len {α : Type} {p q : List α} (x : List α) (h : q.length < p.length) :
    ¬ (p ++ x) = q := by
  intro hh
  have h2 := congrArg List.length hh
  rw [List.length_append] at h2
  omega

theorem src_app_ne_bg (base gid : String) (x : Path) :
    ¬ (srcPath base gid ++ x) = bgPath base gid :=
  app_ne_of_len x (by simp [srcPath, gamePath, srcSubRel, bgPath])

theorem dst_app_ne_bg (base gid : String) (x : Path) :
    ¬ (dstPath base gid ++ x) = bgPath base gid :=
  app_ne_of_len x (by simp [dstPath, gamePath, dstSubRel, bgPath])

theorem src_assoc (base gid : String) (x : Path) :
    srcPath base gid ++ x = gamePath base gid ++ (srcSubRel ++ x) := by
  rw [srcPath, List.append_assoc]

theorem dst_assoc (base gid : String) (x : Path) :
    dstPath base gid ++ x = gamePath base gid ++ (dstSubRel gid ++ x) := by
  rw [dstPath, List.append_assoc]

/-- C4 counterexample: in a successful concrete instantiation the
rewritten Kotlin source still contains the template namespace token
com.roshni.games.game.template, because the script replaces only the
exact string "package com.roshni.games.game.template" and the
template's import line carries the namespace token without the
"package " prefix; the claim that every .kt file contains zero
occurrences of the namespace token is therefore false. -/
theorem claim4_counterexample :
    retBool (setup_game_module noInject fsTmpl "snake-game" "Snake" "arcade" "game")
      = some true ∧
    fileContains (outFS (setup_game_module noInject fsTmpl "snake-game" "Snake" "arcade" "game"))
      (dstPath "game" "snake-game" ++ ["TemplateScreen.kt"]) nsToken = true :=
  ⟨by decide, by decide⟩

/-- C4 amended: after every successful instantiation from a clean
initial state, every Kotlin source file carried over from the
template's namespace directory, other than a file named GameConfig.kt
(which the config-emission step overwrites), ends with contents that
are exactly the script's two raw replacements applied to the
template's contents: first every occurrence of the literal
"package com.roshni.games.game.template" becomes
"package com.roshni.games.game.<id>", then every occurrence of
"Template" becomes the derived type name.  Occurrences of the bare
namespace token (imports) survive, and the replacement text itself can
recreate token occurrences, so the original zero-occurrence claim does
not hold. -/
theorem claim4_amended_rewrite (inj : Inject) (fs : FS) (gid gname gcat base : String)
    (fs' : FS)
    (hclean : cleanUnder fs (gamePath base gid) = true)
    (hndk : NodupKeys fs)
    (hnogid : cleanUnder fs (templatePath base ++ dstSubRel gid) = true)
    (hsrcdir : findE fs (templatePath base ++ srcSubRel) = some Entry.dir)
    (h : setup_game_module inj fs gid gname gcat base = Outcome.ret true fs')
    (r : String) (rs : List String) (c : Content)
    (hfile : findE fs (templatePath base ++ srcSubRel ++ r :: rs) = some (Entry.file c))
    (hkt : isKtName (lastStr (r :: rs)) = true)
    (hnotcfg : ¬ (r :: rs : Path) = ["GameConfig.kt"]) :
    findE fs' (dstPath base gid ++ r :: rs) = some (Entry.file (ktRewrite gid c)) := by
  have htb := setup_ret_true_tryBlock h
  obtain ⟨fs1, fs2, fs3, fs4, h1, h2, h3, h4, h5⟩ := tryBlock_ok_inv htb
  have hcorr := copytree_ok_findE hclean h1
  have hndk1 : NodupKeys fs1 := by
    obtain ⟨_, _, he1⟩ := copytree_ok_inv h1
    rw [he1]
    exact ndk_copytree hndk hclean
  have hfr2 : ∀ q : Path, ¬ q = bgPath base gid → findE fs2 q = findE fs1 q :=
    fun q hq => gradleStep_frame (Or.inl h2) hq
  have hndk2 : NodupKeys fs2 := by
    rcases gradleStep_ok_cases h2 with ⟨_, he2⟩ | ⟨cbg, _, he2⟩
    · rw [he2]
      exact hndk1
    · rw [he2]
      exact ndk_setEntry hndk1
  have hch2 : ∀ x : Path, findE fs2 (srcPath base gid ++ x)
      = findE fs (templatePath base ++ (srcSubRel ++ x)) := by
    intro x
    rw [hfr2 _ (src_app_ne_bg base gid x), src_assoc base gid x]
    exact hcorr (srcSubRel ++ x)
  have hch2d : ∀ x : Path, findE fs2 (dstPath base gid ++ x)
      = findE fs (templatePath base ++ (dstSubRel gid ++ x)) := by
    intro x
    rw [hfr2 _ (dst_app_ne_bg base gid x), dst_assoc base gid x]
    exact hcorr (dstSubRel gid ++ x)
  have hsrc2 : findE fs2 (srcPath base gid) = some Entry.dir := by
    have hx := hch2 []
    simp only [List.append_nil] at hx
    exact hx.trans hsrcdir
  rcases renameStep_ok_cases h3 with ⟨_, he3⟩ | ⟨hnone3, _⟩
  swap
  · rw [hsrc2] at hnone3
    cases hnone3
  have hcb : ∀ q, isPfxB (dstPath base gid) q = true → findE fs2 q = none := by
    intro q hq
    rcases (isPfxB_iff _ _).mp hq with ⟨x, rfl⟩
    rw [hch2d x]
    refine cleanUnder_findE hnogid ?_
    rw [← List.append_assoc]
    exact isPfxB_append (templatePath base ++ dstSubRel gid) x
  have hch3 : ∀ x : Path, findE fs3 (dstPath base gid ++ x)
      = findE fs (templatePath base ++ (srcSubRel ++ x)) := by
    intro x
    rw [he3, renameTree_findE_under hcb x]
    exact hch2 x
  have hdst3 : findE fs3 (dstPath base gid) = some Entry.dir := by
    have hx := hch3 []
    simp only [List.append_nil] at hx
    exact hx.trans hsrcdir
  have hndk3 : NodupKeys fs3 := by
    rw [he3]
    exact ndk_renameTree hndk2 hcb
  have hp3 : findE fs3 (dstPath base gid ++ r :: rs) = some (Entry.file c) := by
    rw [hch3 (r :: rs), ← List.append_assoc]
    exact hfile
  have hmem : (dstPath base gid ++ r :: rs) ∈ ktFiles fs3 (dstPath base gid) := by
    unfold ktFiles
    rw [if_pos hdst3]
    exact mem_ktFilesAux_of (findE_some_mem hp3)
      (stripPfx_append (dstPath base gid) (r :: rs)) hkt
  have hkt4 : findE fs4 (dstPath base gid ++ r :: rs)
      = some (Entry.file (ktRewrite gid c)) :=
    ktLoop_ok_content (ktFiles fs3 (dstPath base gid)) (ktFiles_nodup hndk3) 0 fs3 fs4 h4
      _ hmem c hp3
  have hne_cfg : ¬ (dstPath base gid ++ r :: rs) = cfgPath base gid := by
    intro hh
    exact hnotcfg (append_cancel (dstPath base gid) hh)
  rw [configStep_ok h5, findE_setEntry, if_neg hne_cfg]
  exact hkt4

/-- C4 witness: the concrete successful run rewrites the template's
TemplateScreen.kt into exactly its two-replacement image. -/
theorem claim4_witness :
    findE (outFS (setup_game_module noInject fsTmpl "snake-game" "Snake" "arcade" "game"))
      (dstPath "game" "snake-game" ++ ["TemplateScreen.kt"])
      = some (Entry.file (ktRewrite "snake-game" ktTmplContent)) :=
  claim4_amended_rewrite noInject fsTmpl "snake-game" "Snake" "arcade" "game"
    (outFS (setup_game_module noInject fsTmpl "snake-game" "Snake" "arcade" "game"))
    (by decide) (by unfold NodupKeys; decide) (by decide) (by decide) (by decide)
    "TemplateScreen.kt" [] ktTmplContent (by decide) (by decide) (by decide)

theorem getLastD_append_cons :
    ∀ (xs : List String) (d r : String) (rs : List String),
      (xs ++ r :: rs).getLastD d = (r :: rs).getLastD d := by
  intro xs
  induction xs with
  | nil =>
    intro d r rs
    rfl
  | cons x xs ih =>
    intro d r rs
    rw [List.cons_append, List.getLastD_cons, ih]
    rw [List.getLastD_cons, List.getLastD_cons]

theorem lastStr_append (xs : Path) (r : String) (rs : List String) :
    lastStr (xs ++ r :: rs) = lastStr (r :: rs) := by
  unfold lastStr
  rw [getLastD_append_cons]

theorem cfg_dropLast (base gid : String) :
    (cfgPath base gid).dropLast = dstPath base gid := by
  rw [cfgPath]
  simp

theorem src_ne_bg (base gid : String) : ¬ srcPath base gid = bgPath base gid :=
  ne_of_len (by simp [srcPath, gamePath, srcSubRel, bgPath])

theorem dst_ne_bg (base gid : String) : ¬ dstPath base gid = bgPath base gid :=
  ne_of_len (by simp [dstPath, gamePath, dstSubRel, bgPath])

theorem cfg_ne_bg (base gid : String) : ¬ cfgPath base gid = bgPath base gid :=
  ne_of_len (by simp [cfgPath, dstPath, gamePath, dstSubRel, bgPath])

theorem c3a_success (fs : FS) (gid gname gcat base : String)
    (hclean : cleanUnder fs (gamePath base gid) = true)
    (hndk : NodupKeys fs)
    (htp : findE fs (templatePath base) = some Entry.dir)
    (hnobg : findE fs (templatePath base ++ ["build.gradle.kts"]) = none)
    (hsrcdir : findE fs (templatePath base ++ srcSubRel) = some Entry.dir)
    (hnogid : cleanUnder fs (templatePath base ++ dstSubRel gid) = true)
    (hnoktd : noKtDirs fs = true) :
    ∃ fsF, setup_game_module noInject fs gid gname gcat base = Outcome.ret true fsF := by
  have hgp0 : findE fs (gamePath base gid) = none :=
    cleanUnder_findE hclean (isPfxB_refl (gamePath base gid))
  have h1 : copytreeM noInject fs (templatePath base) (gamePath base gid)
      = Except.ok (fs ++ (gamePath base gid, Entry.dir)
          :: copyChildren (templatePath base) (gamePath base gid) fs) := by
    unfold copytreeM
    rw [if_pos htp]
    rfl
  obtain ⟨fs1, hfs1⟩ : ∃ fs1, fs ++ (gamePath base gid, Entry.dir)
      :: copyChildren (templatePath base) (gamePath base gid) fs = fs1 := ⟨_, rfl⟩
  rw [hfs1] at h1
  have hcorr : ∀ rel, findE fs1 (gamePath base gid ++ rel)
      = findE fs (templatePath base ++ rel) := copytree_ok_findE hclean h1
  have hndk1 : NodupKeys fs1 := by
    rw [← hfs1]
    exact ndk_copytree hndk hclean
  have hbg1 : findE fs1 (bgPath base gid) = none :=
    (hcorr ["build.gradle.kts"]).trans hnobg
  have h2 : gradleStep noInject base gid fs1 = Except.ok fs1 := by
    unfold gradleStep
    rw [hbg1]
  have hsrc1 : findE fs1 (srcPath base gid) = some Entry.dir :=
    (hcorr srcSubRel).trans hsrcdir
  have h3 : renameStep noInject base gid fs1
      = Except.ok (renameTree fs1 (srcPath base gid) (dstPath base gid)) := by
    unfold renameStep
    rw [hsrc1]
    rfl
  obtain ⟨fs3, hfs3⟩ : ∃ fs3, renameTree fs1 (srcPath base gid) (dstPath base gid) = fs3 :=
    ⟨_, rfl⟩
  rw [hfs3] at h3
  have hcb : ∀ q, isPfxB (dstPath base gid) q = true → findE fs1 q = none := by
    intro q hq
    rcases (isPfxB_iff _ _).mp hq with ⟨x, rfl⟩
    rw [dst_assoc base gid x, hcorr (dstSubRel gid ++ x)]
    refine cleanUnder_findE hnogid ?_
    rw [← List.append_assoc]
    exact isPfxB_append (templatePath base ++ dstSubRel gid) x
  have hch3 : ∀ x : Path, findE fs3 (dstPath base gid ++ x)
      = findE fs (templatePath base ++ (srcSubRel ++ x)) := by
    intro x
    rw [← hfs3, renameTree_findE_under hcb x, src_assoc base gid x]
    exact hcorr (srcSubRel ++ x)
  have hdst3 : findE fs3 (dstPath base gid) = some Entry.dir := by
    have hx := hch3 []
    simp only [List.append_nil] at hx
    exact hx.trans hsrcdir
  have hndk3 : NodupKeys fs3 := by
    rw [← hfs3]
    exact ndk_renameTree hndk1 hcb
  have hall : ∀ p ∈ ktFiles fs3 (dstPath base gid),
      ∃ c, findE fs3 p = some (Entry.file c) := by
    intro p hp
    have hp2 : p ∈ ktFilesAux (dstPath base gid) fs3 := by
      unfold ktFiles at hp
      rw [if_pos hdst3] at hp
      exact hp
    rcases mem_ktFilesAux_inv hp2 with ⟨r, rs, hsp, hktn, hkeys⟩
    have hpe : p = dstPath base gid ++ r :: rs := stripPfx_some _ _ _ hsp
    have hval : findE fs3 p = findE fs (templatePath base ++ (srcSubRel ++ r :: rs)) := by
      rw [hpe]
      exact hch3 (r :: rs)
    cases hv : findE fs (templatePath base ++ (srcSubRel ++ r :: rs)) with
    | some e =>
      cases e with
      | file c => exact ⟨c, by rw [hval, hv]⟩
      | dir =>
        exfalso
        have hmem := findE_some_mem hv
        have hpred := List.all_eq_true.mp hnoktd _ hmem
        have hpred2 : isKtName (lastStr (templatePath base ++ (srcSubRel ++ r :: rs)))
            = false := by simpa using hpred
        rw [← List.append_assoc, lastStr_append, hktn] at hpred2
        cases hpred2
    | none =>
      exfalso
      rcases mem_keysOf_iff.mp hkeys with ⟨e, hme⟩
      have hs := findE_isSome_of_mem hme
      rw [show ((p, e).1 : Path) = p from rfl, hval, hv] at hs
      cases hs
  obtain ⟨fs4, h4⟩ := @ktLoop_ok_of noInject gid rfl (ktFiles fs3 (dstPath base gid)) 0 fs3 hall
  have h4' : ktStep noInject base gid fs3 = Except.ok fs4 := h4
  have hGC : isKtName (lastStr ["GameConfig.kt"]) = true := by decide
  have hcfg3 : findE fs3 (cfgPath base gid)
      = findE fs (templatePath base ++ (srcSubRel ++ ["GameConfig.kt"])) :=
    hch3 ["GameConfig.kt"]
  have hconf : ∃ fs5, configStep noInject base gid gname gcat fs4 = Except.ok fs5 := by
    cases hv : findE fs (templatePath base ++ (srcSubRel ++ ["GameConfig.kt"])) with
    | some e =>
      cases e with
      | file c0 =>
        have hc3 : findE fs3 (cfgPath base gid) = some (Entry.file c0) := by
          rw [hcfg3, hv]
        have hmemc : (cfgPath base gid) ∈ ktFiles fs3 (dstPath base gid) := by
          unfold ktFiles
          rw [if_pos hdst3]
          exact mem_ktFilesAux_of (findE_some_mem hc3)
            (stripPfx_append (dstPath base gid) ["GameConfig.kt"]) hGC
        have hc4 : findE fs4 (cfgPath base gid) = some (Entry.file (ktRewrite gid c0)) :=
          ktLoop_ok_content _ (ktFiles_nodup hndk3) 0 fs3 fs4 h4 _ hmemc c0 hc3
        unfold configStep
        rw [writeFile_file_some hc4 (configContent gid gname gcat)]
        exact ⟨_, rfl⟩
      | dir =>
        exfalso
        have hmem := findE_some_mem hv
        have hpred := List.all_eq_true.mp hnoktd _ hmem
        have hpred2 : isKtName (lastStr (templatePath base
            ++ (srcSubRel ++ ["GameConfig.kt"]))) = false := by simpa using hpred
        rw [← List.append_assoc, lastStr_append, hGC] at hpred2
        cases hpred2
    | none =>
      have hc3 : findE fs3 (cfgPath base gid) = none := by
        rw [hcfg3, hv]
      have hnotin : ∀ p ∈ ktFiles fs3 (dstPath base gid), p ≠ cfgPath base gid := by
        intro p hp hpe
        have hp2 : p ∈ ktFilesAux (dstPath base gid) fs3 := by
          unfold ktFiles at hp
          rw [if_pos hdst3] at hp
          exact hp
        rcases mem_ktFilesAux_inv hp2 with ⟨r, rs, _, _, hkeys⟩
        rcases mem_keysOf_iff.mp hkeys with ⟨e, hme⟩
        have hs := findE_isSome_of_mem hme
        rw [show ((p, e).1 : Path) = p from rfl, hpe, hc3] at hs
        cases hs
      have hc4 : findE fs4 (cfgPath base gid) = none := by
        rw [ktLoop_frame _ 0 fs3 fs4 (Or.inl h4) _ hnotin]
        exact hc3
      have hd4 : findE fs4 (dstPath base gid) = some Entry.dir := by
        rw [ktLoop_frame _ 0 fs3 fs4 (Or.inl h4) _ ?_]
        · exact hdst3
        · intro p hp hpe
          rcases ktFiles_strict_under hp with ⟨r, rs, hru⟩
          rw [hpe] at hru
          exact append_cons_ne (dstPath base gid) r rs hru.symm
      have hw : writeFile fs4 (cfgPath base gid) (configContent gid gname gcat)
          = some (setEntry fs4 (cfgPath base gid)
              (Entry.file (configContent gid gname gcat))) := by
        unfold writeFile
        rw [hc4]
        show (if findE fs4 (cfgPath base gid).dropLast = some Entry.dir
          then some (setEntry fs4 (cfgPath base gid)
            (Entry.file (configContent gid gname gcat)))
          else none) = _
        rw [cfg_dropLast base gid, if_pos hd4]
      unfold configStep
      rw [hw]
      exact ⟨_, rfl⟩
  obtain ⟨fs5, h5⟩ := hconf
  have htb : tryBlock noInject base gid gname gcat fs = Except.ok fs5 := by
    simp only [tryBlock, h1, h2, h3, h4', h5]
  refine ⟨fs5, ?_⟩
  rw [setup_guard_false (by rw [hgp0]; rfl), htb]

theorem c3b_failure (fs : FS) (gid gname gcat base : String)
    (hclean : cleanUnder fs (gamePath base gid) = true)
    (htp : findE fs (templatePath base) = some Entry.dir)
    (hbgnd : ¬ findE fs (templatePath base ++ ["build.gradle.kts"]) = some Entry.dir)
    (hnosrc : cleanUnder fs (templatePath base ++ srcSubRel) = true)
    (hnogid : cleanUnder fs (templatePath base ++ dstSubRel gid) = true) :
    setup_game_module noInject fs gid gname gcat base = Outcome.ret false fs := by
  have hgp0 : findE fs (gamePath base gid) = none :=
    cleanUnder_findE hclean (isPfxB_refl (gamePath base gid))
  have h1 : copytreeM noInject fs (templatePath base) (gamePath base gid)
      = Except.ok (fs ++ (gamePath base gid, Entry.dir)
          :: copyChildren (templatePath base) (gamePath base gid) fs) := by
    unfold copytreeM
    rw [if_pos htp]
    rfl
  obtain ⟨fs1, hfs1⟩ : ∃ fs1, fs ++ (gamePath base gid, Entry.dir)
      :: copyChildren (templatePath base) (gamePath base gid) fs = fs1 := ⟨_, rfl⟩
  rw [hfs1] at h1
  have hcorr : ∀ rel, findE fs1 (gamePath base gid ++ rel)
      = findE fs (templatePath base ++ rel) := copytree_ok_findE hclean h1
  have h2ex : ∃ fs2, gradleStep noInject base gid fs1 = Except.ok fs2 := by
    unfold gradleStep
    cases hv : findE fs1 (bgPath base gid) with
    | none => exact ⟨fs1, rfl⟩
    | some e =>
      cases e with
      | dir =>
        exfalso
        apply hbgnd
        rw [← hcorr ["build.gradle.kts"]]
        exact hv
      | file cbg =>
        refine ⟨setEntry fs1 (bgPath base gid) (Entry.file (gradleRewrite gid cbg)), ?_⟩
        show (if noInject.gradleFail = true then Except.error fs1
          else match writeFile fs1 (bgPath base gid) (gradleRewrite gid cbg) with
            | some fs2 => Except.ok fs2
            | none => Except.error fs1) = _
        rw [writeFile_file_some hv (gradleRewrite gid cbg)]
        rfl
  obtain ⟨fs2, h2⟩ := h2ex
  have hfr2 : ∀ q : Path, ¬ q = bgPath base gid → findE fs2 q = findE fs1 q :=
    fun q hq => gradleStep_frame (Or.inl h2) hq
  have hsrc2 : findE fs2 (srcPath base gid) = none := by
    rw [hfr2 _ (src_ne_bg base gid)]
    have hx : findE fs1 (srcPath base gid) = findE fs (templatePath base ++ srcSubRel) :=
      hcorr srcSubRel
    rw [hx]
    exact cleanUnder_findE hnosrc (isPfxB_refl _)
  have h3 : renameStep noInject base gid fs2 = Except.ok fs2 := by
    unfold renameStep
    rw [hsrc2]
    rfl
  have hdst2 : findE fs2 (dstPath base gid) = none := by
    rw [hfr2 _ (dst_ne_bg base gid)]
    have hx : findE fs1 (dstPath base gid)
        = findE fs (templatePath base ++ dstSubRel gid) := hcorr (dstSubRel gid)
    rw [hx]
    exact cleanUnder_findE hnogid (isPfxB_refl _)
  have h4 : ktStep noInject base gid fs2 = Except.ok fs2 := by
    unfold ktStep ktFiles
    rw [if_neg (show ¬ findE fs2 (dstPath base gid) = some Entry.dir by
      rw [hdst2]
      intro hh
      cases hh)]
    rfl
  have hcfg2 : findE fs2 (cfgPath base gid) = none := by
    rw [hfr2 _ (cfg_ne_bg base gid)]
    have hx : findE fs1 (cfgPath base gid)
        = findE fs (templatePath base ++ (dstSubRel gid ++ ["GameConfig.kt"])) :=
      hcorr (dstSubRel gid ++ ["GameConfig.kt"])
    rw [hx]
    refine cleanUnder_findE hnogid ?_
    rw [← List.append_assoc]
    exact isPfxB_append (templatePath base ++ dstSubRel gid) ["GameConfig.kt"]
  have h5 : configStep noInject base gid gname gcat fs2 = Except.error fs2 := by
    unfold configStep
    show (match writeFile fs2 (cfgPath base gid) (configContent gid gname gcat) with
      | some fs3 => Except.ok fs3
      | none => Except.error fs2) = Except.error fs2
    have hw : writeFile fs2 (cfgPath base gid) (configContent gid gname gcat) = none := by
      unfold writeFile
      rw [hcfg2]
      show (if findE fs2 (cfgPath base gid).dropLast = some Entry.dir
        then some (setEntry fs2 (cfgPath base gid)
          (Entry.file (configContent gid gname gcat)))
        else none) = none
      rw [cfg_dropLast base gid, if_neg (show
        ¬ findE fs2 (dstPath base gid) = some Entry.dir by
          rw [hdst2]
          intro hh
          cases hh)]
    rw [hw]
  have htb : tryBlock noInject base gid gname gcat fs = Except.error fs2 := by
    simp only [tryBlock, h1, h2, h3, h4, h5]
  have hgp2 : findE fs2 (gamePath base gid) = some Entry.dir := by
    rw [hfr2 _ (gp_ne_bg base gid)]
    exact copytree_ok_gp hgp0 h1
  rw [setup_guard_false (by rw [hgp0]; rfl), htb]
  show (if (findE fs2 (gamePath base gid)).isSome = true then _ else _) = _
  rw [if_pos (by rw [hgp2]; rfl)]
  show (if noInject.rmtreeFail = true then _ else _) = _
  rw [if_neg (show ¬ noInject.rmtreeFail = true by intro hh; cases hh)]
  rw [show rmtree fs2 (gamePath base gid) = fs from
    (tryBlock_rmtree_inv (Or.inr htb)).trans (rmtree_cleanUnder hclean)]

/-- C3 counterexample: a template root that exists but lacks both the
build descriptor and the namespace source subdirectory: the copy
succeeds and both optional steps are skipped as no-ops, but the config
emission then fails because the renamed directory does not exist, the
handler rolls the target back, and instantiate returns failure with
the filesystem restored, not success with a materialized target. -/
theorem claim3_counterexample :
    findE fsTmplBare (templatePath "game") = some Entry.dir ∧
    findE fsTmplBare (templatePath "game" ++ ["build.gradle.kts"]) = none ∧
    findE fsTmplBare (templatePath "game" ++ srcSubRel) = none ∧
    setup_game_module noInject fsTmplBare "g2" "G" "puzzle" "game"
      = Outcome.ret false fsTmplBare :=
  ⟨by decide, by decide, by decide, by decide⟩

/-- C3 amended: absence of the build descriptor alone is tolerated,
the rewrite step is silently skipped and instantiation still succeeds;
but absence of the namespace source subdirectory is not: the rename is
silently skipped, yet config emission then fails to create
GameConfig.kt inside the missing renamed directory, the target is
rolled back, and instantiate returns failure with the initial
filesystem restored. -/
theorem claim3_amended_tolerance (fs : FS) (gid gname gcat base : String) :
    ((cleanUnder fs (gamePath base gid) = true ∧ NodupKeys fs ∧
      findE fs (templatePath base) = some Entry.dir ∧
      findE fs (templatePath base ++ ["build.gradle.kts"]) = none ∧
      findE fs (templatePath base ++ srcSubRel) = some Entry.dir ∧
      cleanUnder fs (templatePath base ++ dstSubRel gid) = true ∧
      noKtDirs fs = true) →
      ∃ fsF, setup_game_module noInject fs gid gname gcat base = Outcome.ret true fsF) ∧
    ((cleanUnder fs (gamePath base gid) = true ∧
      findE fs (templatePath base) = some Entry.dir ∧
      ¬ findE fs (templatePath base ++ ["build.gradle.kts"]) = some Entry.dir ∧
      cleanUnder fs (templatePath base ++ srcSubRel) = true ∧
      cleanUnder fs (templatePath base ++ dstSubRel gid) = true) →
      setup_game_module noInject fs gid gname gcat base = Outcome.ret false fs) :=
  ⟨fun ⟨h1, h2, h3, h4, h5, h6, h7⟩ => c3a_success fs gid gname gcat base h1 h2 h3 h4 h5 h6 h7,
    fun ⟨h1, h2, h3, h4, h5⟩ => c3b_failure fs gid gname gcat base h1 h2 h3 h4 h5⟩

/-- C3 witness: a template without build.gradle.kts but with the
namespace directory instantiates successfully, and the bare template
without the namespace directory leads to a failure return with the
filesystem restored. -/
theorem claim3_witness :
    (∃ fsF, setup_game_module noInject fsTmplNoBg "word-match" "WM" "word" "game"
      = Outcome.ret true fsF) ∧
    setup_game_module noInject fsTmplBare "g2" "G" "puzzle" "game"
      = Outcome.ret false fsTmplBare :=
  ⟨(claim3_amended_tolerance fsTmplNoBg "word-match" "WM" "word" "game").1
      ⟨by decide, by unfold NodupKeys; decide, by decide, by decide, by decide,
        by decide, by decide⟩,
    (claim3_amended_tolerance fsTmplBare "g2" "G" "puzzle" "game").2
      ⟨by decide, by decide, by decide, by decide, by decide⟩⟩

end SGM
